import Mathlib

/-!
# gocalc: a shallow embedding of `calc.go`

The Go package evaluates an arithmetic expression given as text: `Calculate`
hands the text to `go/parser` and folds the resulting `go/ast` tree with `eval`.

This development embeds `Calculate` and the evaluator (`eval`, `binary`,
`basic`, `unary`, `ident`, `call`, the `funcMap` registry built by `init`) as
Lean functions and proves properties of them.

Modelling decisions:

* `float64` is a concrete datatype `Float64` (NaN, the two infinities, and the
  finite values as signed multiples of `2^-1074`); `+ - * /`, unary minus and
  the conversions `float64(int64)` / `int64(float64)` are computed with
  round-to-nearest-even.
* A Go call returns `(float64, error)` or does not return at all (a run-time
  panic).  `Run` keeps the two apart.
* What the package calls but does not define (the `math` functions,
  `strconv.ParseFloat`, `parser.ParseExpr`, the Unicode case tables behind
  `strings.ToLower`, the platform-dependent result of an out-of-range
  float-to-int conversion) is a parameter `Env`.  `strconv.ParseInt` is
  modelled in full; `goParseExpr` models the Go scanner and parser on the
  expressions this package evaluates.
* The package-level variable `funcMap` is passed explicitly to `eval`.
-/

namespace Calc

/-! ## float64 -/

/-- IEEE-754 binary64 data.  `fin neg k` is the finite value
`(-1)^neg * k * 2^-1074`; a value produced by the operations below has a
significand of at most 53 bits and lies below `2^1024`. -/
inductive Float64
  | nan
  | inf (neg : Bool)
  | fin (neg : Bool) (k : Nat)
deriving DecidableEq, Repr

/-- One step of the binary search in `bitLenSmall`. -/
def bitLenStep (st : Nat × Nat) (p : Nat) : Nat × Nat :=
  if st.1 >>> p = 0 then st else (st.1 >>> p, st.2 + p)

/-- Number of binary digits of `n`, for `n < 2^64`. -/
def bitLenSmall (n : Nat) : Nat :=
  let st := [32, 16, 8, 4, 2, 1].foldl bitLenStep (n, 0)
  if st.1 = 0 then 0 else st.2 + 1

/-- Number of binary digits of `n`, 64 at a time; the first argument bounds
the number of steps. -/
def bitLenAux : Nat → Nat → Nat
  | 0, _ => 0
  | fuel + 1, n => if n < 2 ^ 64 then bitLenSmall n else bitLenAux fuel (n >>> 64) + 64

/-- Number of binary digits of `n` (`0` for `n = 0`). -/
def bitLen (n : Nat) : Nat := bitLenAux n n

/-- Nearest integer to `n / d`, ties to even (`d > 0`). -/
def rne (n d : Nat) : Nat :=
  let q := n / d
  let r := n % d
  if 2 * r < d then q
  else if d < 2 * r then q + 1
  else if q % 2 = 0 then q else q + 1

/-- Round `n / d`, counted in units of `2^-1074`, to a 53-bit significand. -/
def roundUnits (n d : Nat) : Nat :=
  let s := bitLen (n / d) - 53
  rne n (d <<< s) <<< s

/-- The float64 nearest to `(-1)^neg * (n / d) * 2^-1074`; overflow gives
an infinity. -/
def mkFin (neg : Bool) (n d : Nat) : Float64 :=
  let k := roundUnits n d
  if k < 1 <<< 2098 then .fin neg k else .inf neg

namespace Float64

/-- Go `-x`. -/
def neg : Float64 → Float64
  | nan => nan
  | inf s => inf (!s)
  | fin s k => fin (!s) k

/-- Go `x + y`. -/
def add : Float64 → Float64 → Float64
  | nan, _ => nan
  | _, nan => nan
  | inf a, inf b => if a = b then inf a else nan
  | inf a, fin _ _ => inf a
  | fin _ _, inf b => inf b
  | fin a k, fin b l =>
    if a = b then mkFin a (k + l) 1
    else if k = l then fin false 0
    else if l < k then mkFin a (k - l) 1
    else mkFin b (l - k) 1

/-- Go `x - y`. -/
def sub (x y : Float64) : Float64 := add x (neg y)

/-- Go `x * y`. -/
def mul : Float64 → Float64 → Float64
  | nan, _ => nan
  | _, nan => nan
  | inf a, inf b => inf (a != b)
  | inf a, fin b l => if l = 0 then nan else inf (a != b)
  | fin a k, inf b => if k = 0 then nan else inf (a != b)
  | fin a k, fin b l => mkFin (a != b) (k * l) (1 <<< 1074)

/-- Go `x / y`. -/
def div : Float64 → Float64 → Float64
  | nan, _ => nan
  | _, nan => nan
  | inf _, inf _ => nan
  | inf a, fin b _ => inf (a != b)
  | fin a _, inf b => fin (a != b) 0
  | fin a k, fin b l =>
    if l = 0 then (if k = 0 then nan else inf (a != b))
    else mkFin (a != b) (k <<< 1074) l

/-- Go `float64(i)` for an integer `i`. -/
def ofInt (i : Int) : Float64 := mkFin (decide (i < 0)) (i.natAbs <<< 1074) 1

/-- The value of `x` truncated toward zero, when `x` is finite. -/
def trunc : Float64 → Option Int
  | fin s k => some (if s then -((k >>> 1074 : Nat) : Int) else ((k >>> 1074 : Nat) : Int))
  | _ => none

/-- The natural number `x` is equal to, if there is one; the negative zero
is not counted as one. -/
def natValue : Float64 → Option Nat
  | fin s k => if s = false ∧ (k >>> 1074) <<< 1074 = k then some (k >>> 1074) else none
  | _ => none

end Float64

/-- The constant `-1` that the package returns next to every error. -/
def negOne : Float64 := .fin true (1 <<< 1074)

/-- Go `math.Pi`, the float64 nearest to the constant of the `math` package. -/
def Pi : Float64 :=
  mkFin false (314159265358979323846264338327950288419716939937510582097494459 <<< 1074) (10 ^ 62)

/-- Go `math.E`. -/
def E : Float64 :=
  mkFin false (271828182845904523536028747135266249775724709369995957496696763 <<< 1074) (10 ^ 62)

/-- Go `math.Phi`. -/
def Phi : Float64 :=
  mkFin false (161803398874989484820458683436563811772030917980576286213544862 <<< 1074) (10 ^ 62)

/-! ## int64 -/

/-- Reduce an integer to the range of `int64` (two's complement wrap-around). -/
def wrapInt64 (i : Int) : Int := (i + 2 ^ 63) % 2 ^ 64 - 2 ^ 63

/-- The 64-bit pattern of an `int64`. -/
def toUint64 (i : Int) : Nat := (i % 2 ^ 64).toNat

/-- The `int64` with a given 64-bit pattern. -/
def ofUint64 (n : Nat) : Int := if n < 2 ^ 63 then (n : Int) else (n : Int) - 2 ^ 64

/-- Go `a & b` on `int64`. -/
def int64And (a b : Int) : Int := ofUint64 (toUint64 a &&& toUint64 b)

/-- Go `a | b` on `int64`. -/
def int64Or (a b : Int) : Int := ofUint64 (toUint64 a ||| toUint64 b)

/-- Go `a % b` on `int64` for `b ≠ 0`: the remainder of the division that
truncates toward zero. -/
def int64Rem (a b : Int) : Int := wrapInt64 (Int.tmod a b)

/-! ## Errors and results -/

/-- The two causes of a `*strconv.NumError`. -/
inductive NumErr
  | ErrSyntax
  | ErrRange
deriving DecidableEq, Repr

/-- A Go `error` value as this package meets it: `errors.New(text)`, the
`*strconv.NumError{Func, Num, Err}` of a failed conversion, or the
`scanner.ErrorList` of a failed parse, kept by its message. -/
inductive GoError
  | new (text : String)
  | numError (fn : String) (num : String) (err : NumErr)
  | errorList (msg : String)
deriving DecidableEq, Repr

/-- Outcome of running a Go function: it returns, or it panics. -/
inductive Run (α : Type)
  | done (a : α)
  | panicked (reason : String)
deriving DecidableEq, Repr

/-- What `eval` and its helpers produce: the pair `(float64, error)`, with
`none` for a nil error, unless the call panics. -/
abbrev Result := Run (Float64 × Option GoError)

/-! ## Syntax trees of `go/ast` -/

/-- The tokens of `go/token` that occur as operators or literal kinds. -/
inductive Token
  | IDENT | INT | FLOAT | IMAG | CHAR | STRING
  | ADD | SUB | MUL | QUO | REM
  | AND | OR | XOR | SHL | SHR | AND_NOT
  | LAND | LOR | ARROW
  | EQL | LSS | GTR | NOT | NEQ | LEQ | GEQ | TILDE
deriving DecidableEq, Repr

/-- An `ast.Expr`.  The six node types `eval` handles carry the fields the
package reads; `SelectorExpr` and `Other` stand for the node types it does
not handle. -/
inductive Expr
  | BinaryExpr (X : Expr) (Op : Token) (Y : Expr)
  | BasicLit (Kind : Token) (Value : String)
  | ParenExpr (X : Expr)
  | CallExpr (Fun : Expr) (Args : List Expr)
  | UnaryExpr (Op : Token) (X : Expr)
  | Ident (Name : String)
  | SelectorExpr (X : Expr) (Sel : String)
  | Other (kind : String)

/-! ## The environment -/

/-- What the package uses without defining it. -/
structure Env where
  /-- Go `unicode.ToLower` on the characters outside ASCII. -/
  ToLowerRune : Char → Char
  /-- Go `strconv.ParseFloat(s, 64)`. -/
  ParseFloat : String → Float64 × Option GoError
  /-- Go `parser.ParseExpr`: the syntax tree of a source text, or an error. -/
  ParseExpr : String → Except GoError Expr
  /-- Result of `int64(x)` when `x` is NaN, infinite or out of range, which
  Go leaves to the implementation. -/
  int64OutOfRange : Float64 → Int
  /-- Go `math.Pow`. -/
  Pow : Float64 → Float64 → Float64
  /-- Go `math.Sqrt`. -/
  Sqrt : Float64 → Float64
  /-- Go `math.Floor`. -/
  Floor : Float64 → Float64
  /-- Go `math.Ceil`. -/
  Ceil : Float64 → Float64
  /-- Go `math.Abs`. -/
  Abs : Float64 → Float64
  /-- Go `math.Log`. -/
  Log : Float64 → Float64
  /-- Go `math.Sin`. -/
  Sin : Float64 → Float64
  /-- Go `math.Cos`. -/
  Cos : Float64 → Float64
  /-- Go `math.Tan`. -/
  Tan : Float64 → Float64
  /-- Go `math.Asin`. -/
  Asin : Float64 → Float64
  /-- Go `math.Acos`. -/
  Acos : Float64 → Float64
  /-- Go `math.Atan`. -/
  Atan : Float64 → Float64
  /-- Go `math.Max`. -/
  Max : Float64 → Float64 → Float64
  /-- Go `math.Min`. -/
  Min : Float64 → Float64 → Float64

/-- Go `unicode.ToLower`: the ASCII capitals move by 32, other ASCII
characters stay, the rest goes through the case tables. -/
def lowerRune (env : Env) (c : Char) : Char :=
  if c.val < 128 then c.toLower else env.ToLowerRune c

/-- Go `strings.ToLower`. -/
def ToLower (env : Env) (s : String) : String := String.mk (s.data.map (lowerRune env))

/-- Go `int64(x)` for a float64 `x`: truncation toward zero when the result
fits, an implementation-chosen `int64` otherwise. -/
def toInt64 (env : Env) (x : Float64) : Int :=
  match x.trunc with
  | some t => if -2 ^ 63 ≤ t ∧ t < 2 ^ 63 then t else wrapInt64 (env.int64OutOfRange x)
  | none => wrapInt64 (env.int64OutOfRange x)

/-! ## strconv.ParseInt -/

/-- The digit loop of `strconv.ParseUint(s, 10, 64)`: a character that is not
a decimal digit is a syntax error, a value above `2^64 - 1` a range error,
whichever comes first. -/
def parseUintLoop : List Char → Nat → Except NumErr Nat
  | [], n => .ok n
  | c :: cs, n =>
    if '0' ≤ c ∧ c ≤ '9' then
      let n1 := n * 10 + (c.toNat - '0'.toNat)
      if 2 ^ 64 - 1 < n1 then .error .ErrRange else parseUintLoop cs n1
    else .error .ErrSyntax

/-- Go `strconv.ParseUint(s, 10, 64)`, on the characters of `s`. -/
def ParseUint (s : List Char) : Except NumErr Nat :=
  if s = [] then .error .ErrSyntax else parseUintLoop s 0

/-- Go `strconv.ParseInt(s, 10, 64)`: an optional sign, then `ParseUint`, then
the range check against `2^63`. -/
def ParseInt (s : String) : Int × Option GoError :=
  if s = "" then (0, some (.numError "ParseInt" s .ErrSyntax))
  else
    let signed : Bool × List Char :=
      match s.data with
      | '+' :: rest => (false, rest)
      | '-' :: rest => (true, rest)
      | cs => (false, cs)
    match ParseUint signed.2 with
    | .error .ErrSyntax => (0, some (.numError "ParseInt" s .ErrSyntax))
    | .error .ErrRange =>
      if signed.1 then (-2 ^ 63, some (.numError "ParseInt" s .ErrRange))
      else (2 ^ 63 - 1, some (.numError "ParseInt" s .ErrRange))
    | .ok un =>
      if !signed.1 ∧ 2 ^ 63 ≤ un then (2 ^ 63 - 1, some (.numError "ParseInt" s .ErrRange))
      else if signed.1 ∧ 2 ^ 63 < un then (-2 ^ 63, some (.numError "ParseInt" s .ErrRange))
      else if signed.1 then (wrapInt64 (-(un : Int)), none)
      else ((un : Int), none)

/-! ## The evaluator -/

/-- Go `basic`: the value of a literal node. -/
def basic (env : Env) (Kind : Token) (Value : String) : Result :=
  match Kind with
  | .INT =>
    match ParseInt Value with
    | (_, some err) => .done (negOne, some err)
    | (i, none) => .done (Float64.ofInt i, none)
  | .FLOAT =>
    match env.ParseFloat Value with
    | (_, some err) => .done (negOne, some err)
    | (i, none) => .done (i, none)
  | _ => .done (negOne, some (.new "Unknown token"))

/-- Go `ident`: the three named constants. -/
def ident (env : Env) (Name : String) : Result :=
  let n := ToLower env Name
  if n = "pi" then .done (Pi, none)
  else if n = "e" then .done (E, none)
  else if n = "phi" then .done (Phi, none)
  else .done (negOne, some (.new ("Unknown ident " ++ n)))

/-- Go `unary`, given the outcome of `eval(u.X)`. -/
def unary (Op : Token) (rx : Result) : Result :=
  match rx with
  | .panicked p => .panicked p
  | .done (_, some err) => .done (negOne, some err)
  | .done (x, none) =>
    match Op with
    | .SUB => .done (x.neg, none)
    | .ADD => .done (x, none)
    | _ => .done (negOne, some (.new "Unknown unary operator"))

/-- Go `binary`, given the outcomes of `eval(expr.X)` and `eval(expr.Y)`, which
the Go function computes first and in this order.  The integer remainder
panics on a zero divisor. -/
def binary (env : Env) (Op : Token) (rx ry : Result) : Result :=
  match rx with
  | .panicked p => .panicked p
  | .done (x, err1) =>
    match ry with
    | .panicked p => .panicked p
    | .done (y, err2) =>
      match err1, err2 with
      | none, none =>
        match Op with
        | .ADD => .done (x.add y, none)
        | .SUB => .done (x.sub y, none)
        | .MUL => .done (x.mul y, none)
        | .QUO => .done (x.div y, none)
        | .REM =>
          if toInt64 env y = 0 then .panicked "runtime error: integer divide by zero"
          else .done (Float64.ofInt (int64Rem (toInt64 env x) (toInt64 env y)), none)
        | .AND => .done (Float64.ofInt (int64And (toInt64 env x) (toInt64 env y)), none)
        | .OR => .done (Float64.ofInt (int64Or (toInt64 env x) (toInt64 env y)), none)
        | .XOR => .done (env.Pow x y, none)
        | _ => .done (negOne, some (.new "Unknown operator"))
      | some e1, _ => .done (negOne, some e1)
      | none, some e2 => .done (negOne, some e2)

set_option linter.dupNamespace false in
/-- Go `Func`: an entry of the registry.  The implementation receives the
argument slice and panics when it indexes past its end. -/
structure Func where
  Name : String
  Args : Int
  Func : List Float64 → Run Float64

/-- The type of the package variable `funcMap`, a Go `map[string]Func`. -/
abbrev FuncMap := String → Option Func

/-- Go `m[k] = v`. -/
def FuncMap.set (m : FuncMap) (k : String) (v : Func) : FuncMap :=
  fun k2 => if k2 = k then some v else m k2

/-- Go `args[i]`. -/
def index (args : List Float64) (i : Nat) : Run Float64 :=
  match args[i]? with
  | some a => .done a
  | none => .panicked "runtime error: index out of range"

/-- A builtin that applies `f` to `args[0]`. -/
def unaryImpl (f : Float64 → Float64) (args : List Float64) : Run Float64 :=
  match index args 0 with
  | .panicked p => .panicked p
  | .done a => .done (f a)

/-- A builtin that combines `args[0]` and `args[1]`, read in this order. -/
def binaryImpl (f : Float64 → Float64 → Float64) (args : List Float64) : Run Float64 :=
  match index args 0 with
  | .panicked p => .panicked p
  | .done a =>
    match index args 1 with
    | .panicked p => .panicked p
    | .done b => .done (f a b)

/-- Go `init`: the registry after package initialisation. -/
def init (env : Env) : FuncMap :=
  let funcMap : FuncMap := fun _ => none
  let funcMap := funcMap.set "sqrt" (Func.mk "sqrt" 1 (unaryImpl env.Sqrt))
  let funcMap := funcMap.set "floor" (Func.mk "floor" 1 (unaryImpl env.Floor))
  let funcMap := funcMap.set "ceil" (Func.mk "ceil" 1 (unaryImpl env.Ceil))
  let funcMap := funcMap.set "abs" (Func.mk "abs" 1 (unaryImpl env.Abs))
  let funcMap := funcMap.set "log" (Func.mk "log" 2
    (binaryImpl (fun a b => (env.Log a).div (env.Log b))))
  let funcMap := funcMap.set "ln" (Func.mk "ln" 1 (unaryImpl env.Log))
  let funcMap := funcMap.set "sin" (Func.mk "sin" 1 (unaryImpl env.Sin))
  let funcMap := funcMap.set "cos" (Func.mk "cos" 1 (unaryImpl env.Cos))
  let funcMap := funcMap.set "tan" (Func.mk "tan" 1 (unaryImpl env.Tan))
  let funcMap := funcMap.set "arcsin" (Func.mk "arcsin" 1 (unaryImpl env.Asin))
  let funcMap := funcMap.set "arccos" (Func.mk "arccos" 1 (unaryImpl env.Acos))
  let funcMap := funcMap.set "arctan" (Func.mk "arctan" 1 (unaryImpl env.Atan))
  let funcMap := funcMap.set "max" (Func.mk "max" 2 (binaryImpl env.Max))
  let funcMap := funcMap.set "min" (Func.mk "min" 2 (binaryImpl env.Min))
  funcMap

/-- Go `call`, given the callee node and the outcome of the loop that
evaluates the arguments.  The callee is inspected first, so a callee that is
not an identifier ends the call whatever the arguments are. -/
def call (env : Env) (funcMap : FuncMap) (Fun : Expr)
    (rargs : Run (Except GoError (List Float64))) : Result :=
  match Fun with
  | .Ident Name =>
    match rargs with
    | .panicked p => .panicked p
    | .done (.error err) => .done (negOne, some err)
    | .done (.ok args) =>
      let name := ToLower env Name
      match funcMap name with
      | some val =>
        if (args.length : Int) = val.Args then
          match val.Func args with
          | .panicked p => .panicked p
          | .done r => .done (r, none)
        else .done (negOne, some (.new ("Too many or little arguments for " ++ name)))
      | none => .done (negOne, some (.new ("Unknown function " ++ name)))
  | _ => .done (negOne, some (.new "Unknown function type"))

mutual
/-- Go `eval`: dispatch on the node type.  The recursive calls that `binary`,
`unary` and `call` make in Go are made here and their outcomes passed on. -/
def eval (env : Env) (funcMap : FuncMap) : Expr → Result
  | .BinaryExpr X Op Y => binary env Op (eval env funcMap X) (eval env funcMap Y)
  | .BasicLit Kind Value => basic env Kind Value
  | .ParenExpr X => eval env funcMap X
  | .CallExpr Fun Args => call env funcMap Fun (evalArgs env funcMap Args)
  | .UnaryExpr Op X => unary Op (eval env funcMap X)
  | .Ident Name => ident env Name
  | _ => .done (negOne, some (.new "Cannot evaluate this expression"))
/-- The loop of `call` over `c.Args`: evaluate from left to right, stop at the
first error. -/
def evalArgs (env : Env) (funcMap : FuncMap) : List Expr → Run (Except GoError (List Float64))
  | [] => .done (.ok [])
  | a :: rest =>
    match eval env funcMap a with
    | .panicked p => .panicked p
    | .done (_, some err) => .done (.error err)
    | .done (v, none) =>
      match evalArgs env funcMap rest with
      | .panicked p => .panicked p
      | .done (.error err) => .done (.error err)
      | .done (.ok vs) => .done (.ok (v :: vs))
end

/-- Go `Calculate`: parse the text, then evaluate the tree under the registry
that `init` has built. -/
def Calculate (env : Env) (expr : String) : Result :=
  match env.ParseExpr expr with
  | .error err => .done (negOne, some err)
  | .ok root => eval env (init env) root

/-! ## A sample environment

The theorems below hold for every `Env`.  To run the definitions on concrete
input one environment is fixed here.  It follows Go where the result is
determined (`Floor`, `Ceil`, `Abs`, `Max`, `Min`, powers of natural numbers
that are representable, floating-point literals, the syntax of expressions)
and returns NaN from the functions it does not model (`Sqrt`, `Log`, the
trigonometric functions, the remaining cases of `Pow`). -/

namespace Float64

/-- Go `x < y`. -/
def lt : Float64 → Float64 → Bool
  | nan, _ => false
  | _, nan => false
  | inf a, inf b => a && !b
  | inf a, fin _ _ => a
  | fin _ _, inf b => !b
  | fin a k, fin b l =>
    match a, b with
    | false, false => decide (k < l)
    | true, true => decide (l < k)
    | true, false => decide (0 < k ∨ 0 < l)
    | false, true => false

/-- Go `math.Abs`. -/
def abs : Float64 → Float64
  | nan => nan
  | inf _ => inf false
  | fin _ k => fin false k

/-- Go `math.Floor`. -/
def floor : Float64 → Float64
  | fin s k =>
    let q := k >>> 1074
    if q <<< 1074 = k then fin s k
    else if s then fin true ((q + 1) <<< 1074)
    else fin false (q <<< 1074)
  | x => x

/-- Go `math.Ceil`, which is `-Floor(-x)`. -/
def ceil (x : Float64) : Float64 := (floor x.neg).neg

/-- Sign bit of a value that is not NaN. -/
def signbit : Float64 → Bool
  | nan => false
  | inf s => s
  | fin s _ => s

/-- Go `math.Max`. -/
def max (x y : Float64) : Float64 :=
  if x = inf false ∨ y = inf false then inf false
  else if x = nan ∨ y = nan then nan
  else if (x = fin false 0 ∨ x = fin true 0) ∧ (y = fin false 0 ∨ y = fin true 0) then
    (if signbit x then y else x)
  else if lt y x then x else y

/-- Go `math.Min`. -/
def min (x y : Float64) : Float64 :=
  if x = inf true ∨ y = inf true then inf true
  else if x = nan ∨ y = nan then nan
  else if (x = fin false 0 ∨ x = fin true 0) ∧ (y = fin false 0 ∨ y = fin true 0) then
    (if signbit x then x else y)
  else if lt x y then x else y

/-- The integer power `a ^ b` when `x = a` and `y = b` are natural numbers
and the power is a float64; NaN otherwise. -/
def powNat (x y : Float64) : Float64 :=
  match x.natValue, y.natValue with
  | some a, some b =>
    if (ofInt ((a ^ b : Nat) : Int)).natValue = some (a ^ b) then ofInt ((a ^ b : Nat) : Int)
    else nan
  | _, _ => nan

end Float64

/-- Value of a run of decimal digits. -/
def decimalValue (ds : List Char) : Nat :=
  ds.foldl (fun n c => n * 10 + (c.toNat - '0'.toNat)) 0

/-- Value of the digits of an exponent; as in `strconv`, digits are dropped
once the value has reached 10000. -/
def exponentValue (ds : List Char) : Nat :=
  ds.foldl (fun e c => if e < 10000 then e * 10 + (c.toNat - '0'.toNat) else e) 0

/-- An optional sign and the characters after it. -/
def splitSign : List Char → Bool × List Char
  | '+' :: rest => (false, rest)
  | '-' :: rest => (true, rest)
  | cs => (false, cs)

/-- The float64 nearest to `(-1)^neg * mant * 10^e10`, with the range error
of `strconv.ParseFloat` on overflow. -/
def decimalToFloat (s : String) (neg : Bool) (mant : Nat) (e10 : Int) :
    Float64 × Option GoError :=
  let x :=
    if 0 ≤ e10 then mkFin neg ((mant * 10 ^ e10.toNat) <<< 1074) 1
    else mkFin neg (mant <<< 1074) (10 ^ (-e10).toNat)
  match x with
  | .fin _ _ => (x, none)
  | _ => (x, some (.numError "ParseFloat" s .ErrRange))

/-- Go `strconv.ParseFloat(s, 64)` on decimal spellings: an optional sign,
digits with at most one point, and an optional exponent `e` or `E` with an
optional sign.  The result is correctly rounded.  Spellings outside this
grammar (among them the hexadecimal and `_`-separated forms and the words
`inf` and `nan`, which `strconv` also reads) are reported as syntax errors. -/
def parseDecimalFloat (s : String) : Float64 × Option GoError :=
  let synErr : Float64 × Option GoError :=
    (.fin false 0, some (.numError "ParseFloat" s .ErrSyntax))
  let signed := splitSign s.data
  let ip := signed.2.takeWhile Char.isDigit
  let r1 := signed.2.dropWhile Char.isDigit
  let fp := match r1 with
    | '.' :: r => r.takeWhile Char.isDigit
    | _ => []
  let r2 := match r1 with
    | '.' :: r => r.dropWhile Char.isDigit
    | _ => r1
  if ip = [] ∧ fp = [] then synErr
  else
    let mant := decimalValue (ip ++ fp)
    match r2 with
    | [] => decimalToFloat s signed.1 mant (-(fp.length : Int))
    | c :: r3 =>
      if c = 'e' ∨ c = 'E' then
        let esigned := splitSign r3
        if esigned.2 = [] ∨ esigned.2.all Char.isDigit = false then synErr
        else if esigned.1 then
          decimalToFloat s signed.1 mant (-(exponentValue esigned.2 : Int) - (fp.length : Int))
        else decimalToFloat s signed.1 mant ((exponentValue esigned.2 : Int) - (fp.length : Int))
      else synErr

/-! ### strconv.ParseFloat on hexadecimal spellings -/

/-- A hexadecimal digit. -/
def isHexDigit (c : Char) : Bool :=
  c.isDigit || (decide ('a' ≤ c.toLower) && decide (c.toLower ≤ 'f'))

/-- Value of one hexadecimal digit. -/
def hexDigitValue (c : Char) : Nat :=
  if c.isDigit then c.toNat - '0'.toNat else c.toLower.toNat - 'a'.toNat + 10

/-- Value of a run of hexadecimal digits. -/
def hexValue (ds : List Char) : Nat :=
  ds.foldl (fun n c => n * 16 + hexDigitValue c) 0

/-- The float64 nearest to `(-1)^neg * mant * 2^e2`, with the range error of
`strconv.ParseFloat` on overflow. -/
def binaryToFloat (s : String) (neg : Bool) (mant : Nat) (e2 : Int) :
    Float64 × Option GoError :=
  let x :=
    if 0 ≤ e2 + 1074 then mkFin neg (mant <<< (e2 + 1074).toNat) 1
    else mkFin neg mant (1 <<< (-(e2 + 1074)).toNat)
  match x with
  | .fin _ _ => (x, none)
  | _ => (x, some (.numError "ParseFloat" s .ErrRange))

/-- The text, after an optional sign, starts with `0x` or `0X` and goes on. -/
def isHexSpelling (cs : List Char) : Bool :=
  match (splitSign cs).2 with
  | '0' :: x :: _ :: _ => x = 'x' || x = 'X'
  | _ => false

/-- Go `strconv.ParseFloat(s, 64)` on hexadecimal spellings: an optional sign,
`0x`, hexadecimal digits with at most one point, and the exponent `p` or `P`
with an optional sign, which is required.  The result is correctly rounded. -/
def parseHexFloat (s : String) : Float64 × Option GoError :=
  let synErr : Float64 × Option GoError :=
    (.fin false 0, some (.numError "ParseFloat" s .ErrSyntax))
  let signed := splitSign s.data
  let body := signed.2.drop 2
  let ip := body.takeWhile isHexDigit
  let r1 := body.dropWhile isHexDigit
  let fp := match r1 with
    | '.' :: r => r.takeWhile isHexDigit
    | _ => []
  let r2 := match r1 with
    | '.' :: r => r.dropWhile isHexDigit
    | _ => r1
  if ip = [] ∧ fp = [] then synErr
  else
    let mant := hexValue (ip ++ fp)
    match r2 with
    | [] => synErr
    | c :: r3 =>
      if c = 'p' ∨ c = 'P' then
        let esigned := splitSign r3
        if esigned.2 = [] ∨ esigned.2.all Char.isDigit = false then synErr
        else if esigned.1 then
          binaryToFloat s signed.1 mant (-(exponentValue esigned.2 : Int) - 4 * (fp.length : Int))
        else binaryToFloat s signed.1 mant ((exponentValue esigned.2 : Int) - 4 * (fp.length : Int))
      else synErr

/-- Go `strconv.ParseFloat(s, 64)` on the decimal and hexadecimal spellings
of floating-point numbers.  The `_`-separated forms and the words `inf` and
`nan`, which `strconv` also reads, are reported as syntax errors. -/
def parseFloatText (s : String) : Float64 × Option GoError :=
  if isHexSpelling s.data then parseHexFloat s else parseDecimalFloat s

/-! ### A model of `go/scanner` and `go/parser`

`parser.ParseExpr` on the expressions made of identifiers, number literals,
the unary and binary operators of Go, parentheses, selectors and calls.  Any
other source text (strings, comments, brackets, keywords, `_` in numbers,
letters outside ASCII) is answered with an error. -/

/-- A token delivered by the scanner. -/
inductive Lexeme
  | lit (kind : Token) (text : String)
  | ident (name : String)
  | op (tok : Token)
  | lparen
  | rparen
  | comma
  | period
  | newline
  | other (text : String)
deriving DecidableEq, Repr

/-- The keywords of Go. -/
def keywords : List String :=
  ["break", "case", "chan", "const", "continue", "default", "defer", "else",
   "fallthrough", "for", "func", "go", "goto", "if", "import", "interface", "map",
   "package", "range", "return", "select", "struct", "switch", "type", "var"]

/-- A character that may start an identifier. -/
def isLetter (c : Char) : Bool := c.isAlpha || c = '_'

/-- The run of digits the scanner accepts for a base: for a base up to ten
every decimal digit, else every hexadecimal digit. -/
def scanDigits (base : Nat) (cs : List Char) : List Char × List Char :=
  if base ≤ 10 then (cs.takeWhile Char.isDigit, cs.dropWhile Char.isDigit)
  else (cs.takeWhile isHexDigit, cs.dropWhile isHexDigit)

/-- Some digit of the run is not a digit of the base. -/
def invalidDigit (base : Nat) (ds : List Char) : Bool :=
  decide (base ≤ 10) && ds.any (fun c => decide ('0'.toNat + base ≤ c.toNat))

/-- The prefix of a number, its base, and the text after the prefix: `x`, `o`,
`b` for `0x`, `0o`, `0b`; `0` for a leading zero, which is kept in the text;
`d` for a decimal number. -/
def scanPrefix : List Char → Char × Nat × List Char
  | '0' :: c :: r =>
    if c.toLower = 'x' then ('x', 16, r)
    else if c.toLower = 'o' then ('o', 8, r)
    else if c.toLower = 'b' then ('b', 2, r)
    else ('0', 8, c :: r)
  | '0' :: [] => ('0', 8, [])
  | cs => ('d', 10, cs)

/-- Go `scanNumber`: the kind of the number literal at the head of `cs` and
the text after it, or an error for a malformed literal. -/
def scanNumber (cs : List Char) : Except String (Token × List Char) :=
  let dotFirst : Bool := cs.head? = some '.'
  let pre : Char × Nat × List Char := if dotFirst then ('d', 10, cs) else scanPrefix cs
  let intPart : List Char × List Char :=
    if dotFirst then ([], cs) else scanDigits pre.2.1 pre.2.2
  let hasDot : Bool := intPart.2.head? = some '.'
  let fracPart : List Char × List Char :=
    if hasDot then scanDigits pre.2.1 intPart.2.tail else ([], intPart.2)
  let hasDigit : Bool := (!dotFirst && pre.1 = '0') || !intPart.1.isEmpty || !fracPart.1.isEmpty
  let finish (isFloat : Bool) (rest : List Char) : Except String (Token × List Char) :=
    match rest with
    | 'i' :: rest2 => .ok (.IMAG, rest2)
    | _ =>
      if isFloat then .ok (.FLOAT, rest)
      else if invalidDigit pre.2.1 intPart.1 then .error "invalid digit in number"
      else .ok (.INT, rest)
  if hasDot && (pre.1 = 'o' || pre.1 = 'b') then .error "invalid radix point"
  else if !hasDigit then .error "number has no digits"
  else
    match fracPart.2 with
    | e :: r3 =>
      if e.toLower = 'e' ∨ e.toLower = 'p' then
        if e.toLower = 'e' ∧ pre.1 ≠ 'd' ∧ pre.1 ≠ '0' then
          .error "exponent requires decimal mantissa"
        else if e.toLower = 'p' ∧ pre.1 ≠ 'x' then
          .error "exponent requires hexadecimal mantissa"
        else
          let afterSign : List Char :=
            match r3 with
            | '+' :: r => r
            | '-' :: r => r
            | r => r
          if (afterSign.takeWhile Char.isDigit).isEmpty then .error "exponent has no digits"
          else finish true (afterSign.dropWhile Char.isDigit)
      else if pre.1 = 'x' && hasDot then .error "hexadecimal mantissa requires a 'p' exponent"
      else finish hasDot fracPart.2
    | [] =>
      if pre.1 = 'x' && hasDot then .error "hexadecimal mantissa requires a 'p' exponent"
      else finish hasDot []

/-- The operator or delimiter at the head of the text, longest match first,
and the text after it.  Tokens that no expression of the modelled forms
contains are returned as `other`; comments and characters that start no token
here give `none`. -/
def scanOperator : List Char → Option (Lexeme × List Char)
  | '+' :: '+' :: r => some (.other "++", r)
  | '+' :: '=' :: r => some (.other "+=", r)
  | '+' :: r => some (.op .ADD, r)
  | '-' :: '-' :: r => some (.other "--", r)
  | '-' :: '=' :: r => some (.other "-=", r)
  | '-' :: r => some (.op .SUB, r)
  | '*' :: '=' :: r => some (.other "*=", r)
  | '*' :: r => some (.op .MUL, r)
  | '/' :: '/' :: _ => none
  | '/' :: '*' :: _ => none
  | '/' :: '=' :: r => some (.other "/=", r)
  | '/' :: r => some (.op .QUO, r)
  | '%' :: '=' :: r => some (.other "%=", r)
  | '%' :: r => some (.op .REM, r)
  | '^' :: '=' :: r => some (.other "^=", r)
  | '^' :: r => some (.op .XOR, r)
  | '<' :: '-' :: r => some (.op .ARROW, r)
  | '<' :: '<' :: '=' :: r => some (.other "<<=", r)
  | '<' :: '<' :: r => some (.op .SHL, r)
  | '<' :: '=' :: r => some (.op .LEQ, r)
  | '<' :: r => some (.op .LSS, r)
  | '>' :: '>' :: '=' :: r => some (.other ">>=", r)
  | '>' :: '>' :: r => some (.op .SHR, r)
  | '>' :: '=' :: r => some (.op .GEQ, r)
  | '>' :: r => some (.op .GTR, r)
  | '=' :: '=' :: r => some (.op .EQL, r)
  | '=' :: r => some (.other "=", r)
  | '!' :: '=' :: r => some (.op .NEQ, r)
  | '!' :: r => some (.op .NOT, r)
  | '&' :: '^' :: '=' :: r => some (.other "&^=", r)
  | '&' :: '^' :: r => some (.op .AND_NOT, r)
  | '&' :: '&' :: r => some (.op .LAND, r)
  | '&' :: '=' :: r => some (.other "&=", r)
  | '&' :: r => some (.op .AND, r)
  | '|' :: '|' :: r => some (.op .LOR, r)
  | '|' :: '=' :: r => some (.other "|=", r)
  | '|' :: r => some (.op .OR, r)
  | '~' :: r => some (.op .TILDE, r)
  | '(' :: r => some (.lparen, r)
  | ')' :: r => some (.rparen, r)
  | ',' :: r => some (.comma, r)
  | '.' :: '.' :: '.' :: r => some (.other "...", r)
  | '.' :: r => some (.period, r)
  | ':' :: '=' :: r => some (.other ":=", r)
  | ':' :: r => some (.other ":", r)
  | ';' :: r => some (.other ";", r)
  | '[' :: r => some (.other "[", r)
  | ']' :: r => some (.other "]", r)
  | '{' :: r => some (.other "\x7b", r)
  | '}' :: r => some (.other "\x7d", r)
  | _ => none

/-- Go `Scanner.Scan`, repeated to the end of the text.  The flag says
whether a line end after the last token stands for a semicolon; the first
argument bounds the number of tokens. -/
def scanAux : Nat → Bool → List Char → Except String (List Lexeme)
  | 0, _, _ => .error "scanner: text not exhausted"
  | fuel + 1, semi, cs =>
    match cs with
    | [] => .ok []
    | c :: rest =>
      if c = ' ' ∨ c = '\t' ∨ c = '\r' then scanAux fuel semi rest
      else if c = '\n' then
        if semi then (scanAux fuel false rest).map (fun ls => Lexeme.newline :: ls)
        else scanAux fuel false rest
      else if isLetter c then
        let name := String.mk (cs.takeWhile (fun d => isLetter d || d.isDigit))
        let rest2 := cs.dropWhile (fun d => isLetter d || d.isDigit)
        if name ∈ keywords then
          (scanAux fuel false rest2).map (fun ls => Lexeme.other name :: ls)
        else (scanAux fuel true rest2).map (fun ls => Lexeme.ident name :: ls)
      else if c.isDigit ∨ (c = '.' ∧ rest.head?.any Char.isDigit = true) then
        match scanNumber cs with
        | .error e => .error e
        | .ok (kind, rest2) =>
          (scanAux fuel true rest2).map
            (fun ls => Lexeme.lit kind (String.mk (cs.take (cs.length - rest2.length))) :: ls)
      else
        match scanOperator cs with
        | none => .error "scanner: text outside the modelled forms"
        | some (l, rest2) =>
          (scanAux fuel (decide (l = Lexeme.rparen)) rest2).map (fun ls => l :: ls)

/-- The tokens of a source text. -/
def scan (s : String) : Except String (List Lexeme) := scanAux (s.data.length + 1) false s.data

/-- Go `Token.Precedence`: the binding strength of a binary operator, and `0`
for every other token. -/
def precedence : Token → Nat
  | .LOR => 1
  | .LAND => 2
  | .EQL => 3
  | .NEQ => 3
  | .LSS => 3
  | .LEQ => 3
  | .GTR => 3
  | .GEQ => 3
  | .ADD => 4
  | .SUB => 4
  | .OR => 4
  | .XOR => 4
  | .MUL => 5
  | .QUO => 5
  | .REM => 5
  | .SHL => 5
  | .SHR => 5
  | .AND => 5
  | .AND_NOT => 5
  | _ => 0

/-- The operators that `parseUnaryExpr` turns into a `UnaryExpr`. -/
def isUnaryOp : Token → Bool
  | .ADD => true
  | .SUB => true
  | .NOT => true
  | .XOR => true
  | .AND => true
  | .TILDE => true
  | .ARROW => true
  | _ => false

mutual
/-- Go `parseBinaryExpr(nil, prec1)`: a unary expression followed by binary
operators of precedence at least `prec1`.  The first argument of each of
these functions bounds the depth of the calls. -/
def parseBinaryExpr : Nat → Nat → List Lexeme → Except String (Expr × List Lexeme)
  | 0, _, _ => .error "parser: depth exhausted"
  | fuel + 1, prec1, toks =>
    match parseUnaryExpr fuel toks with
    | .error e => .error e
    | .ok (x, rest) => binaryLoop fuel x prec1 rest
/-- The loop of `parseBinaryExpr`: while the next token is a binary operator
of precedence at least `prec1`, parse its right operand one level tighter
and make the result the new left operand. -/
def binaryLoop : Nat → Expr → Nat → List Lexeme → Except String (Expr × List Lexeme)
  | 0, _, _, _ => .error "parser: depth exhausted"
  | fuel + 1, x, prec1, toks =>
    match toks with
    | .op t :: rest =>
      if precedence t < prec1 then .ok (x, toks)
      else
        match parseBinaryExpr fuel (precedence t + 1) rest with
        | .error e => .error e
        | .ok (y, rest2) => binaryLoop fuel (.BinaryExpr x t y) prec1 rest2
    | _ => .ok (x, toks)
/-- Go `parseUnaryExpr`. -/
def parseUnaryExpr : Nat → List Lexeme → Except String (Expr × List Lexeme)
  | 0, _ => .error "parser: depth exhausted"
  | fuel + 1, toks =>
    match toks with
    | .op t :: rest =>
      if isUnaryOp t then
        match parseUnaryExpr fuel rest with
        | .error e => .error e
        | .ok (x, rest2) => .ok (.UnaryExpr t x, rest2)
      else if t = .MUL then
        match parseUnaryExpr fuel rest with
        | .error e => .error e
        | .ok (_, rest2) => .ok (.Other "StarExpr", rest2)
      else .error "parser: expected operand"
    | _ =>
      match parseOperand fuel toks with
      | .error e => .error e
      | .ok (x, rest) => primaryLoop fuel x rest
/-- Go `parseOperand`: an identifier, a literal or a parenthesised
expression. -/
def parseOperand : Nat → List Lexeme → Except String (Expr × List Lexeme)
  | 0, _ => .error "parser: depth exhausted"
  | fuel + 1, toks =>
    match toks with
    | .ident name :: rest => .ok (.Ident name, rest)
    | .lit kind text :: rest => .ok (.BasicLit kind text, rest)
    | .lparen :: rest =>
      match parseBinaryExpr fuel 1 rest with
      | .error e => .error e
      | .ok (x, .rparen :: rest2) => .ok (.ParenExpr x, rest2)
      | .ok _ => .error "parser: expected ')'"
    | _ => .error "parser: expected operand"
/-- The loop of `parsePrimaryExpr`: selectors and calls after an operand. -/
def primaryLoop : Nat → Expr → List Lexeme → Except String (Expr × List Lexeme)
  | 0, _, _ => .error "parser: depth exhausted"
  | fuel + 1, x, toks =>
    match toks with
    | .period :: .ident name :: rest => primaryLoop fuel (.SelectorExpr x name) rest
    | .period :: _ => .error "parser: expected selector"
    | .lparen :: rest =>
      match parseArgs fuel rest with
      | .error e => .error e
      | .ok (args, rest2) => primaryLoop fuel (.CallExpr x args) rest2
    | _ => .ok (x, toks)
/-- The argument list of `parseCallOrConversion`, after the opening
parenthesis: expressions separated by commas, up to the closing
parenthesis, which may follow a comma. -/
def parseArgs : Nat → List Lexeme → Except String (List Expr × List Lexeme)
  | 0, _ => .error "parser: depth exhausted"
  | fuel + 1, toks =>
    match toks with
    | .rparen :: rest => .ok ([], rest)
    | _ =>
      match parseBinaryExpr fuel 1 toks with
      | .error e => .error e
      | .ok (x, .comma :: rest) =>
        match parseArgs fuel rest with
        | .error e => .error e
        | .ok (xs, rest2) => .ok (x :: xs, rest2)
      | .ok (x, .rparen :: rest) => .ok ([x], rest)
      | .ok _ => .error "parser: expected ')' or ','"
end

/-- The expression made of all the tokens: `parseExpr`, then the end of the
input, before which one line end is allowed. -/
def parseTokens (toks : List Lexeme) : Except String Expr :=
  match parseBinaryExpr (6 * toks.length + 6) 1 toks with
  | .error e => .error e
  | .ok (x, []) => .ok x
  | .ok (x, [.newline]) => .ok x
  | .ok _ => .error "parser: expected end of input"

/-- Go `parser.ParseExpr` on the modelled forms.  An error of the scanner or
of the parser is returned as one `scanner.ErrorList`. -/
def goParseExpr (s : String) : Except GoError Expr :=
  match scan s with
  | .error e => .error (.errorList e)
  | .ok toks =>
    match parseTokens toks with
    | .error e => .error (.errorList e)
    | .ok x => .ok x

/-- The sample environment. -/
def sampleEnv : Env where
  ToLowerRune := fun c => c
  ParseFloat := parseFloatText
  ParseExpr := goParseExpr
  int64OutOfRange := fun _ => -2 ^ 63
  Pow := Float64.powNat
  Sqrt := fun _ => .nan
  Floor := Float64.floor
  Ceil := Float64.ceil
  Abs := Float64.abs
  Log := fun _ => .nan
  Sin := fun _ => .nan
  Cos := fun _ => .nan
  Tan := fun _ => .nan
  Asin := fun _ => .nan
  Acos := fun _ => .nan
  Atan := fun _ => .nan
  Max := Float64.max
  Min := Float64.min

/-! ## Properties of the environment that some theorems assume -/

/-- `math.Pow` is exact on natural numbers: when `x` and `y` are the natural
numbers `a` and `b` and `a ^ b` is a float64, `Pow(x, y)` is that float64. -/
def PowExact (env : Env) : Prop :=
  ∀ (x y : Float64) (a b : Nat), x.natValue = some a → y.natValue = some b →
    (Float64.ofInt ((a ^ b : Nat) : Int)).natValue = some (a ^ b) →
    env.Pow x y = Float64.ofInt ((a ^ b : Nat) : Int)

/-- Lowering a character twice is the same as lowering it once. -/
def LowerIdempotent (env : Env) : Prop :=
  ∀ c : Char, lowerRune env (lowerRune env c) = lowerRune env c

/-! ## Vocabulary of the statements -/

/-- The argument nodes `Args` evaluate, each on its own, to the values `vs`
without error. -/
def ArgsEvaluateTo (env : Env) (funcMap : FuncMap) (Args : List Expr) (vs : List Float64) :
    Prop :=
  List.Forall₂ (fun a v => eval env funcMap a = .done (v, none)) Args vs

/-- The outcome is a value: the call returned with a nil error. -/
def Succeeds (r : Result) : Prop := ∃ v, r = .done (v, none)

/-- The outcome is not a value: the call returned an error, or it panicked. -/
def Fails (r : Result) : Prop := ¬ Succeeds r

/-- The registry of `init` with one more key, `boom`, of arity one, whose
implementation panics whenever it is run. -/
def boomMap (env : Env) : FuncMap :=
  (init env).set "boom" (Func.mk "boom" 1 (fun _ => .panicked "boom was invoked"))

/-- The binary operators that `binary` computes. -/
def supportedOperators : List Token :=
  [.ADD, .SUB, .MUL, .QUO, .REM, .AND, .OR, .XOR]

/-- The names of the builtins of one argument. -/
def unaryNames : List String :=
  ["sqrt", "floor", "ceil", "abs", "ln", "sin", "cos", "tan", "arcsin", "arccos", "arctan"]

/-- The names of the builtins of two arguments. -/
def binaryNames : List String := ["log", "max", "min"]

/-- The characters are decimal digits, by the test of `strconv.ParseUint`. -/
def AllDecimal (ds : List Char) : Prop := ∀ c ∈ ds, '0' ≤ c ∧ c ≤ '9'

/-- `SubExpr s t`: the node `s` is `t` itself or is reached from `t` by
descending through operands of binary nodes, operands of unary nodes, the
inside of parentheses and arguments of calls. -/
inductive SubExpr : Expr → Expr → Prop
  | refl (t : Expr) : SubExpr t t
  | binaryX {s X : Expr} (Op : Token) (Y : Expr) : SubExpr s X → SubExpr s (.BinaryExpr X Op Y)
  | binaryY {s Y : Expr} (X : Expr) (Op : Token) : SubExpr s Y → SubExpr s (.BinaryExpr X Op Y)
  | unary {s X : Expr} (Op : Token) : SubExpr s X → SubExpr s (.UnaryExpr Op X)
  | paren {s X : Expr} : SubExpr s X → SubExpr s (.ParenExpr X)
  | arg {s a : Expr} (Fun : Expr) (Args : List Expr) :
      a ∈ Args → SubExpr s a → SubExpr s (.CallExpr Fun Args)

/-! ## Auxiliary facts -/

theorem wrapInt64_of_range (i : Int) (h1 : -2 ^ 63 ≤ i) (h2 : i < 2 ^ 63) : wrapInt64 i = i := by
  unfold wrapInt64
  omega

theorem natAbs_tmod_lt (a b : Int) (hb : b ≠ 0) : (Int.tmod a b).natAbs < b.natAbs := by
  have hpos : 0 < b.natAbs := Int.natAbs_pos.mpr hb
  cases a with
  | ofNat m =>
    cases b with
    | ofNat n =>
      show (Int.ofNat (m % n)).natAbs < (Int.ofNat n).natAbs
      simpa using Nat.mod_lt m (by simpa using hpos)
    | negSucc n =>
      show (Int.ofNat (m % (n + 1))).natAbs < n + 1
      simpa using Nat.mod_lt m (Nat.succ_pos n)
  | negSucc m =>
    cases b with
    | ofNat n =>
      show (-Int.ofNat ((m + 1) % n)).natAbs < (Int.ofNat n).natAbs
      simpa using Nat.mod_lt (m + 1) (by simpa using hpos)
    | negSucc n =>
      show (-Int.ofNat ((m + 1) % (n + 1))).natAbs < n + 1
      simpa using Nat.mod_lt (m + 1) (Nat.succ_pos n)

theorem tmod_nonpos (a b : Int) (ha : a ≤ 0) : Int.tmod a b ≤ 0 := by
  cases a with
  | ofNat m =>
    have hm : m = 0 := by
      have : (m : Int) ≤ 0 := ha
      omega
    subst hm
    cases b <;> simp [Int.tmod]
  | negSucc m =>
    cases b with
    | ofNat n =>
      show -Int.ofNat ((m + 1) % n) ≤ 0
      have : (0 : Int) ≤ Int.ofNat ((m + 1) % n) := Int.ofNat_nonneg _
      omega
    | negSucc n =>
      show -Int.ofNat ((m + 1) % (n + 1)) ≤ 0
      have : (0 : Int) ≤ Int.ofNat ((m + 1) % (n + 1)) := Int.ofNat_nonneg _
      omega

theorem tmod_range (a b : Int) (hb1 : -2 ^ 63 ≤ b) (hb2 : b < 2 ^ 63) (hb0 : b ≠ 0) :
    -2 ^ 63 ≤ Int.tmod a b ∧ Int.tmod a b < 2 ^ 63 := by
  have h := natAbs_tmod_lt a b hb0
  omega

theorem toInt64_of_trunc (env : Env) (x : Float64) (t : Int) (h : x.trunc = some t)
    (h1 : -2 ^ 63 ≤ t) (h2 : t < 2 ^ 63) : toInt64 env x = t := by
  unfold toInt64
  rw [h]
  show (if -2 ^ 63 ≤ t ∧ t < 2 ^ 63 then t else _) = t
  rw [if_pos ⟨h1, h2⟩]

theorem eval_BinaryExpr (env : Env) (funcMap : FuncMap) (X Y : Expr) (Op : Token) :
    eval env funcMap (.BinaryExpr X Op Y)
      = binary env Op (eval env funcMap X) (eval env funcMap Y) := by
  rw [eval]

theorem eval_BasicLit (env : Env) (funcMap : FuncMap) (Kind : Token) (Value : String) :
    eval env funcMap (.BasicLit Kind Value) = basic env Kind Value := by
  rw [eval]

theorem eval_ParenExpr (env : Env) (funcMap : FuncMap) (X : Expr) :
    eval env funcMap (.ParenExpr X) = eval env funcMap X := by
  rw [eval]

theorem eval_CallExpr (env : Env) (funcMap : FuncMap) (Fun : Expr) (Args : List Expr) :
    eval env funcMap (.CallExpr Fun Args) = call env funcMap Fun (evalArgs env funcMap Args) := by
  rw [eval]

theorem eval_UnaryExpr (env : Env) (funcMap : FuncMap) (Op : Token) (X : Expr) :
    eval env funcMap (.UnaryExpr Op X) = unary Op (eval env funcMap X) := by
  rw [eval]

theorem eval_Ident (env : Env) (funcMap : FuncMap) (Name : String) :
    eval env funcMap (.Ident Name) = ident env Name := by
  rw [eval]

theorem eval_SelectorExpr (env : Env) (funcMap : FuncMap) (X : Expr) (Sel : String) :
    eval env funcMap (.SelectorExpr X Sel)
      = .done (negOne, some (.new "Cannot evaluate this expression")) := by
  simp [eval]

theorem eval_Other (env : Env) (funcMap : FuncMap) (kind : String) :
    eval env funcMap (.Other kind)
      = .done (negOne, some (.new "Cannot evaluate this expression")) := by
  simp [eval]

theorem evalArgs_nil (env : Env) (funcMap : FuncMap) :
    evalArgs env funcMap [] = .done (.ok []) := by
  rw [evalArgs]

theorem evalArgs_cons (env : Env) (funcMap : FuncMap) (a : Expr) (rest : List Expr) :
    evalArgs env funcMap (a :: rest) =
      match eval env funcMap a with
      | .panicked p => .panicked p
      | .done (_, some err) => .done (.error err)
      | .done (v, none) =>
        match evalArgs env funcMap rest with
        | .panicked p => .panicked p
        | .done (.error err) => .done (.error err)
        | .done (.ok vs) => .done (.ok (v :: vs)) := by
  rw [evalArgs]

/-- An integer literal evaluates to the float64 conversion of its value. -/
theorem eval_int_literal (env : Env) (funcMap : FuncMap) (s : String) (i : Int)
    (h : ParseInt s = (i, none)) :
    eval env funcMap (.BasicLit .INT s) = .done (Float64.ofInt i, none) := by
  rw [eval_BasicLit]
  simp only [basic, h]

theorem binary_done (env : Env) (Op : Token) (x y : Float64) :
    binary env Op (.done (x, none)) (.done (y, none)) =
      match Op with
      | .ADD => .done (x.add y, none)
      | .SUB => .done (x.sub y, none)
      | .MUL => .done (x.mul y, none)
      | .QUO => .done (x.div y, none)
      | .REM =>
        if toInt64 env y = 0 then .panicked "runtime error: integer divide by zero"
        else .done (Float64.ofInt (int64Rem (toInt64 env x) (toInt64 env y)), none)
      | .AND => .done (Float64.ofInt (int64And (toInt64 env x) (toInt64 env y)), none)
      | .OR => .done (Float64.ofInt (int64Or (toInt64 env x) (toInt64 env y)), none)
      | .XOR => .done (env.Pow x y, none)
      | _ => .done (negOne, some (.new "Unknown operator")) := by
  cases Op <;> rfl

theorem evalArgs_of_evaluateTo (env : Env) (funcMap : FuncMap) (Args : List Expr)
    (vs : List Float64) (h : ArgsEvaluateTo env funcMap Args vs) :
    evalArgs env funcMap Args = .done (.ok vs) := by
  induction h with
  | nil => exact evalArgs_nil env funcMap
  | cons ha _ ih => rw [evalArgs_cons, ha, ih]

theorem evaluateTo_length (env : Env) (funcMap : FuncMap) (Args : List Expr)
    (vs : List Float64) (h : ArgsEvaluateTo env funcMap Args vs) :
    Args.length = vs.length :=
  List.Forall₂.length_eq h

/-- With an identifier as callee and arguments that evaluate to `vs`, `call`
is a lookup of the lowered name followed by the arity test. -/
theorem eval_call_ident (env : Env) (funcMap : FuncMap) (Name : String) (Args : List Expr)
    (vs : List Float64) (h : ArgsEvaluateTo env funcMap Args vs) :
    eval env funcMap (.CallExpr (.Ident Name) Args) =
      match funcMap (ToLower env Name) with
      | some val =>
        if (vs.length : Int) = val.Args then
          match val.Func vs with
          | .panicked p => .panicked p
          | .done r => .done (r, none)
        else .done (negOne, some (.new ("Too many or little arguments for " ++ ToLower env Name)))
      | none => .done (negOne, some (.new ("Unknown function " ++ ToLower env Name))) := by
  rw [eval_CallExpr, evalArgs_of_evaluateTo env funcMap Args vs h]
  rfl

/-- The registry of `init` as one lookup: the last assignment is tested first. -/
theorem init_apply (env : Env) (k : String) :
    init env k =
      if k = "min" then some (Func.mk "min" 2 (binaryImpl env.Min))
      else if k = "max" then some (Func.mk "max" 2 (binaryImpl env.Max))
      else if k = "arctan" then some (Func.mk "arctan" 1 (unaryImpl env.Atan))
      else if k = "arccos" then some (Func.mk "arccos" 1 (unaryImpl env.Acos))
      else if k = "arcsin" then some (Func.mk "arcsin" 1 (unaryImpl env.Asin))
      else if k = "tan" then some (Func.mk "tan" 1 (unaryImpl env.Tan))
      else if k = "cos" then some (Func.mk "cos" 1 (unaryImpl env.Cos))
      else if k = "sin" then some (Func.mk "sin" 1 (unaryImpl env.Sin))
      else if k = "ln" then some (Func.mk "ln" 1 (unaryImpl env.Log))
      else if k = "log" then
        some (Func.mk "log" 2 (binaryImpl (fun a b => (env.Log a).div (env.Log b))))
      else if k = "abs" then some (Func.mk "abs" 1 (unaryImpl env.Abs))
      else if k = "ceil" then some (Func.mk "ceil" 1 (unaryImpl env.Ceil))
      else if k = "floor" then some (Func.mk "floor" 1 (unaryImpl env.Floor))
      else if k = "sqrt" then some (Func.mk "sqrt" 1 (unaryImpl env.Sqrt))
      else none := rfl

/-- Every entry of the registry built by `init` has arity one with a
one-argument implementation, or arity two with a two-argument one. -/
theorem init_entry (env : Env) (k : String) (f : Func) (h : init env k = some f) :
    (f.Args = 1 ∧ ∃ g, f.Func = unaryImpl g) ∨ (f.Args = 2 ∧ ∃ g, f.Func = binaryImpl g) := by
  rw [init_apply] at h
  by_cases h_min : k = "min"
  · rw [if_pos h_min] at h
    obtain rfl := Option.some.inj h
    exact Or.inr ⟨rfl, _, rfl⟩
  rw [if_neg h_min] at h
  by_cases h_max : k = "max"
  · rw [if_pos h_max] at h
    obtain rfl := Option.some.inj h
    exact Or.inr ⟨rfl, _, rfl⟩
  rw [if_neg h_max] at h
  by_cases h_arctan : k = "arctan"
  · rw [if_pos h_arctan] at h
    obtain rfl := Option.some.inj h
    exact Or.inl ⟨rfl, _, rfl⟩
  rw [if_neg h_arctan] at h
  by_cases h_arccos : k = "arccos"
  · rw [if_pos h_arccos] at h
    obtain rfl := Option.some.inj h
    exact Or.inl ⟨rfl, _, rfl⟩
  rw [if_neg h_arccos] at h
  by_cases h_arcsin : k = "arcsin"
  · rw [if_pos h_arcsin] at h
    obtain rfl := Option.some.inj h
    exact Or.inl ⟨rfl, _, rfl⟩
  rw [if_neg h_arcsin] at h
  by_cases h_tan : k = "tan"
  · rw [if_pos h_tan] at h
    obtain rfl := Option.some.inj h
    exact Or.inl ⟨rfl, _, rfl⟩
  rw [if_neg h_tan] at h
  by_cases h_cos : k = "cos"
  · rw [if_pos h_cos] at h
    obtain rfl := Option.some.inj h
    exact Or.inl ⟨rfl, _, rfl⟩
  rw [if_neg h_cos] at h
  by_cases h_sin : k = "sin"
  · rw [if_pos h_sin] at h
    obtain rfl := Option.some.inj h
    exact Or.inl ⟨rfl, _, rfl⟩
  rw [if_neg h_sin] at h
  by_cases h_ln : k = "ln"
  · rw [if_pos h_ln] at h
    obtain rfl := Option.some.inj h
    exact Or.inl ⟨rfl, _, rfl⟩
  rw [if_neg h_ln] at h
  by_cases h_log : k = "log"
  · rw [if_pos h_log] at h
    obtain rfl := Option.some.inj h
    exact Or.inr ⟨rfl, _, rfl⟩
  rw [if_neg h_log] at h
  by_cases h_abs : k = "abs"
  · rw [if_pos h_abs] at h
    obtain rfl := Option.some.inj h
    exact Or.inl ⟨rfl, _, rfl⟩
  rw [if_neg h_abs] at h
  by_cases h_ceil : k = "ceil"
  · rw [if_pos h_ceil] at h
    obtain rfl := Option.some.inj h
    exact Or.inl ⟨rfl, _, rfl⟩
  rw [if_neg h_ceil] at h
  by_cases h_floor : k = "floor"
  · rw [if_pos h_floor] at h
    obtain rfl := Option.some.inj h
    exact Or.inl ⟨rfl, _, rfl⟩
  rw [if_neg h_floor] at h
  by_cases h_sqrt : k = "sqrt"
  · rw [if_pos h_sqrt] at h
    obtain rfl := Option.some.inj h
    exact Or.inl ⟨rfl, _, rfl⟩
  rw [if_neg h_sqrt] at h
  exact absurd h (by simp)

/-- An entry of `init` applied to as many values as its arity returns. -/
theorem init_entry_total (env : Env) (k : String) (f : Func) (h : init env k = some f)
    (vs : List Float64) (hlen : (vs.length : Int) = f.Args) : ∃ r, f.Func vs = .done r := by
  rcases init_entry env k f h with ⟨ha, g, hg⟩ | ⟨ha, g, hg⟩
  · rw [ha] at hlen
    match vs, hlen with
    | [v], _ => exact ⟨g v, by rw [hg]; rfl⟩
    | [], hl => simp at hl
    | _ :: _ :: _, hl => simp at hl; omega
  · rw [ha] at hlen
    match vs, hlen with
    | [v, w], _ => exact ⟨g v w, by rw [hg]; rfl⟩
    | [], hl => simp at hl
    | [_], hl => simp at hl
    | _ :: _ :: _ :: _, hl => simp at hl; omega

theorem powExact_sampleEnv : PowExact sampleEnv := by
  intro x y a b hx hy hrep
  show Float64.powNat x y = _
  unfold Float64.powNat
  rw [hx, hy]
  simp only [hrep, if_true]

theorem binary_left_error (env : Env) (Op : Token) (x : Float64) (e1 : GoError)
    (ry : Float64 × Option GoError) :
    binary env Op (.done (x, some e1)) (.done ry) = .done (negOne, some e1) := by
  obtain ⟨y, e2⟩ := ry
  rfl

theorem binary_right_error (env : Env) (Op : Token) (x y : Float64) (e2 : GoError) :
    binary env Op (.done (x, none)) (.done (y, some e2)) = .done (negOne, some e2) := rfl

theorem binary_left_panic (env : Env) (Op : Token) (p : String) (ry : Result) :
    binary env Op (.panicked p) ry = .panicked p := rfl

theorem binary_right_panic (env : Env) (Op : Token) (rx : Float64 × Option GoError)
    (p : String) : binary env Op (.done rx) (.panicked p) = .panicked p := by
  obtain ⟨x, e1⟩ := rx
  rfl

theorem succeeds_binary (env : Env) (Op : Token) (rx ry : Result)
    (h : Succeeds (binary env Op rx ry)) : Succeeds rx ∧ Succeeds ry := by
  obtain ⟨v, hv⟩ := h
  match rx, ry, hv with
  | .panicked p, _, hv => simp [binary] at hv
  | .done (x, e1), .panicked p, hv => simp [binary] at hv
  | .done (x, some e1), .done (y, e2), hv => simp [binary] at hv
  | .done (x, none), .done (y, some e2), hv => simp [binary] at hv
  | .done (x, none), .done (y, none), _ => exact ⟨⟨x, rfl⟩, ⟨y, rfl⟩⟩

theorem succeeds_unary (Op : Token) (rx : Result) (h : Succeeds (unary Op rx)) :
    Succeeds rx := by
  obtain ⟨v, hv⟩ := h
  match rx, hv with
  | .panicked p, hv => simp [unary] at hv
  | .done (x, some e), hv => simp [unary] at hv
  | .done (x, none), _ => exact ⟨x, rfl⟩

theorem succeeds_call (env : Env) (funcMap : FuncMap) (Fun : Expr)
    (rargs : Run (Except GoError (List Float64)))
    (h : Succeeds (call env funcMap Fun rargs)) : ∃ vs, rargs = .done (.ok vs) := by
  obtain ⟨v, hv⟩ := h
  cases Fun with
  | Ident Name =>
    match rargs, hv with
    | .panicked p, hv => simp [call] at hv
    | .done (.error e), hv => simp [call] at hv
    | .done (.ok vs), _ => exact ⟨vs, rfl⟩
  | _ => simp [call] at hv

theorem succeeds_of_evalArgs (env : Env) (funcMap : FuncMap) (Args : List Expr) :
    ∀ vs, evalArgs env funcMap Args = .done (.ok vs) →
      ∀ a ∈ Args, Succeeds (eval env funcMap a) := by
  induction Args with
  | nil => intro vs _ a ha; cases ha
  | cons b rest ih =>
    intro vs h a ha
    rw [evalArgs_cons] at h
    match hb : eval env funcMap b, h with
    | .panicked p, h => simp at h
    | .done (w, some e), h => simp at h
    | .done (w, none), h =>
      match hr : evalArgs env funcMap rest, h with
      | .panicked p, h => simp at h
      | .done (.error e), h => simp at h
      | .done (.ok ws), _ =>
        rcases List.mem_cons.mp ha with rfl | hmem
        · exact ⟨w, hb⟩
        · exact ih ws hr a hmem

theorem fails_iff (r : Result) :
    Fails r ↔ (∃ v e, r = .done (v, some e)) ∨ ∃ p, r = .panicked p := by
  unfold Fails Succeeds
  match r with
  | .panicked p => simp
  | .done (v, some e) => simp
  | .done (v, none) => simp

theorem toLower_idem (env : Env) (h : LowerIdempotent env) (s : String) :
    ToLower env (ToLower env s) = ToLower env s := by
  unfold ToLower
  simp only [List.map_map]
  congr 1
  apply List.map_congr_left
  intro c _
  exact h c

theorem ascii_lower (n : Fin 128) :
    (Char.ofNat n.val).toLower.val < 128
      ∧ (Char.ofNat n.val).toLower.toLower = (Char.ofNat n.val).toLower := by
  revert n
  decide

theorem lowerIdempotent_sampleEnv : LowerIdempotent sampleEnv := by
  intro c
  show lowerRune sampleEnv (lowerRune sampleEnv c) = lowerRune sampleEnv c
  unfold lowerRune
  by_cases hc : c.val < 128
  · have hn : c.toNat < 128 := hc
    have h := ascii_lower ⟨c.toNat, hn⟩
    simp only [Char.ofNat_toNat] at h
    rw [if_pos hc, if_pos h.1, h.2]
  · rw [if_neg hc]
    show (if c.val < 128 then c.toLower else c) = c
    rw [if_neg hc]

/-- When both operands return or panic with the integer division by zero, so
does `binary`. -/
theorem binary_returns_or_divide_panic (env : Env) (Op : Token) (rx ry : Result)
    (hx : (∃ a, rx = .done a) ∨ rx = .panicked "runtime error: integer divide by zero")
    (hy : (∃ a, ry = .done a) ∨ ry = .panicked "runtime error: integer divide by zero") :
    (∃ a, binary env Op rx ry = .done a)
      ∨ binary env Op rx ry = .panicked "runtime error: integer divide by zero" := by
  rcases hx with ⟨⟨x, e1⟩, rfl⟩ | rfl
  · rcases hy with ⟨⟨y, e2⟩, rfl⟩ | rfl
    · cases e1 with
      | some e => exact Or.inl ⟨_, binary_left_error env Op x e (y, e2)⟩
      | none =>
        cases e2 with
        | some e => exact Or.inl ⟨_, binary_right_error env Op x y e⟩
        | none =>
          rw [binary_done]
          cases Op
          case REM =>
            show (∃ a, (if toInt64 env y = 0 then _ else _) = Run.done a) ∨ _
            by_cases hz : toInt64 env y = 0
            · right; rw [if_pos hz]
            · left; rw [if_neg hz]; exact ⟨_, rfl⟩
          all_goals exact Or.inl ⟨_, rfl⟩
    · exact Or.inr (binary_right_panic env Op (x, e1) _)
  · exact Or.inr (binary_left_panic env Op _ ry)

theorem unary_returns_or_divide_panic (Op : Token) (rx : Result)
    (hx : (∃ a, rx = .done a) ∨ rx = .panicked "runtime error: integer divide by zero") :
    (∃ a, unary Op rx = .done a)
      ∨ unary Op rx = .panicked "runtime error: integer divide by zero" := by
  rcases hx with ⟨⟨x, e1⟩, rfl⟩ | rfl
  · cases e1 with
    | some e => exact Or.inl ⟨_, rfl⟩
    | none => cases Op <;> exact Or.inl ⟨_, rfl⟩
  · exact Or.inr rfl

theorem call_returns_or_divide_panic (env : Env) (Fun : Expr)
    (rargs : Run (Except GoError (List Float64)))
    (hargs : (∃ a, rargs = .done a)
      ∨ rargs = .panicked "runtime error: integer divide by zero") :
    (∃ a, call env (init env) Fun rargs = .done a)
      ∨ call env (init env) Fun rargs = .panicked "runtime error: integer divide by zero" := by
  cases Fun with
  | Ident Name =>
    rcases hargs with ⟨a, rfl⟩ | rfl
    · cases a with
      | error e => exact Or.inl ⟨_, rfl⟩
      | ok vs =>
        left
        simp only [call]
        cases hf : init env (ToLower env Name) with
        | none => exact ⟨_, rfl⟩
        | some f =>
          by_cases harity : (vs.length : Int) = f.Args
          · obtain ⟨r, hr⟩ := init_entry_total env _ f hf vs harity
            simp only [harity, if_true, hr]
            exact ⟨_, rfl⟩
          · simp only [harity, if_false]
            exact ⟨_, rfl⟩
    · exact Or.inr rfl
  | _ => exact Or.inl ⟨_, rfl⟩

mutual
/-- Under the registry of `init` an evaluation returns, unless it runs into
the integer division by zero of the remainder operator. -/
theorem eval_returns_or_divide_panic (env : Env) : ∀ t : Expr,
    (∃ a, eval env (init env) t = .done a)
      ∨ eval env (init env) t = .panicked "runtime error: integer divide by zero"
  | .BinaryExpr X Op Y => by
    rw [eval_BinaryExpr]
    exact binary_returns_or_divide_panic env Op _ _
      (eval_returns_or_divide_panic env X) (eval_returns_or_divide_panic env Y)
  | .BasicLit Kind Value => by
    rw [eval_BasicLit]
    left
    unfold basic
    cases Kind <;> first
      | exact ⟨_, rfl⟩
      | (simp only; split <;> exact ⟨_, rfl⟩)
  | .ParenExpr X => by
    rw [eval_ParenExpr]
    exact eval_returns_or_divide_panic env X
  | .CallExpr Fun Args => by
    rw [eval_CallExpr]
    exact call_returns_or_divide_panic env Fun _ (evalArgs_returns_or_divide_panic env Args)
  | .UnaryExpr Op X => by
    rw [eval_UnaryExpr]
    exact unary_returns_or_divide_panic Op _ (eval_returns_or_divide_panic env X)
  | .Ident Name => by
    rw [eval_Ident]
    left
    unfold ident
    simp only
    split_ifs <;> exact ⟨_, rfl⟩
  | .SelectorExpr X Sel => Or.inl ⟨_, eval_SelectorExpr env (init env) X Sel⟩
  | .Other kind => Or.inl ⟨_, eval_Other env (init env) kind⟩
/-- The argument loop returns or runs into the same panic. -/
theorem evalArgs_returns_or_divide_panic (env : Env) : ∀ ts : List Expr,
    (∃ a, evalArgs env (init env) ts = .done a)
      ∨ evalArgs env (init env) ts = .panicked "runtime error: integer divide by zero"
  | [] => Or.inl ⟨_, evalArgs_nil env (init env)⟩
  | a :: rest => by
    rw [evalArgs_cons]
    rcases eval_returns_or_divide_panic env a with ⟨⟨v, e⟩, ha⟩ | ha
    · rw [ha]
      cases e with
      | some err => exact Or.inl ⟨_, rfl⟩
      | none =>
        rcases evalArgs_returns_or_divide_panic env rest with ⟨r, hr⟩ | hr
        · rw [hr]
          cases r with
          | error err => exact Or.inl ⟨_, rfl⟩
          | ok vs => exact Or.inl ⟨_, rfl⟩
        · rw [hr]
          exact Or.inr rfl
    · rw [ha]
      exact Or.inr rfl
end

/-! ## Claims -/

/-- C1 (the code departs from the claim): a remainder whose right operand
truncates to the integer zero does not return.  For every environment and
registry, evaluating `1 % 0` panics with Go's integer-divide-by-zero run-time
error instead of yielding a value or an error, and so does `5 % 0.5` in the
sample environment. -/
theorem C1_rem_by_zero_panics (env : Env) (funcMap : FuncMap) :
    eval env funcMap (.BinaryExpr (.BasicLit .INT "1") .REM (.BasicLit .INT "0"))
        = .panicked "runtime error: integer divide by zero"
    ∧ eval sampleEnv funcMap (.BinaryExpr (.BasicLit .INT "5") .REM (.BasicLit .FLOAT "0.5"))
        = .panicked "runtime error: integer divide by zero" := by
  have h1 : eval env funcMap (.BasicLit .INT "1") = .done (Float64.ofInt 1, none) :=
    eval_int_literal env funcMap "1" 1 (by decide)
  have h0 : eval env funcMap (.BasicLit .INT "0") = .done (Float64.ofInt 0, none) :=
    eval_int_literal env funcMap "0" 0 (by decide)
  have h5 : eval sampleEnv funcMap (.BasicLit .INT "5") = .done (Float64.ofInt 5, none) :=
    eval_int_literal sampleEnv funcMap "5" 5 (by decide)
  have hh : eval sampleEnv funcMap (.BasicLit .FLOAT "0.5")
      = .done (.fin false (1 <<< 1073), none) := by
    rw [eval_BasicLit]
    decide
  have z0 : toInt64 env (Float64.ofInt 0) = 0 :=
    toInt64_of_trunc env _ 0 (by decide) (by decide) (by decide)
  have zh : toInt64 sampleEnv (.fin false (1 <<< 1073)) = 0 :=
    toInt64_of_trunc sampleEnv _ 0 (by decide) (by decide) (by decide)
  constructor
  · rw [eval_BinaryExpr, h1, h0]
    simp only [binary, z0, if_true]
  · rw [eval_BinaryExpr, h5, hh]
    simp only [binary, zh, if_true]

/-- C2: for a binary `%` node whose operands evaluate to `x` and `y`, with
truncations `tx` and `ty` that fit in an `int64` and `ty ≠ 0`, the node
evaluates to `float64(r)` where `r` is the remainder of the truncating
division of `tx` by `ty`: `tx = ty * (tx / ty) + r`, `|r| < |ty|`, and `r` has
the sign of `tx`.  Only the truncations enter the result. -/
theorem C2_rem_of_truncations (env : Env) (funcMap : FuncMap) (X Y : Expr)
    (x y : Float64) (tx ty : Int)
    (hX : eval env funcMap X = .done (x, none))
    (hY : eval env funcMap Y = .done (y, none))
    (hx : x.trunc = some tx) (hy : y.trunc = some ty)
    (hxr : -2 ^ 63 ≤ tx ∧ tx < 2 ^ 63) (hyr : -2 ^ 63 ≤ ty ∧ ty < 2 ^ 63)
    (hy0 : ty ≠ 0) :
    eval env funcMap (.BinaryExpr X .REM Y) = .done (Float64.ofInt (Int.tmod tx ty), none)
    ∧ tx = ty * Int.tdiv tx ty + Int.tmod tx ty
    ∧ (Int.tmod tx ty).natAbs < ty.natAbs
    ∧ (0 ≤ tx → 0 ≤ Int.tmod tx ty)
    ∧ (tx ≤ 0 → Int.tmod tx ty ≤ 0) := by
  have ex : toInt64 env x = tx := toInt64_of_trunc env x tx hx hxr.1 hxr.2
  have ey : toInt64 env y = ty := toInt64_of_trunc env y ty hy hyr.1 hyr.2
  have hr := tmod_range tx ty hyr.1 hyr.2 hy0
  refine ⟨?_, (Int.tdiv_add_tmod tx ty).symm, natAbs_tmod_lt tx ty hy0,
    fun h => Int.tmod_nonneg ty h, tmod_nonpos tx ty⟩
  rw [eval_BinaryExpr, hX, hY]
  simp only [binary, ex, ey, if_neg hy0, int64Rem, wrapInt64_of_range _ hr.1 hr.2]

/-- Witness for C2: `6.9 % 4.9` is `2` in the sample environment, and
`6 % 4 = 2`, `-7 % 3 = -1`. -/
theorem C2_rem_of_truncations_witness :
    eval sampleEnv (init sampleEnv)
        (.BinaryExpr (.BasicLit .FLOAT "6.9") .REM (.BasicLit .FLOAT "4.9"))
      = .done (Float64.ofInt 2, none)
    ∧ eval sampleEnv (init sampleEnv)
        (.BinaryExpr (.BasicLit .INT "6") .REM (.BasicLit .INT "4"))
      = .done (Float64.ofInt 2, none)
    ∧ eval sampleEnv (init sampleEnv)
        (.BinaryExpr (.UnaryExpr .SUB (.BasicLit .INT "7")) .REM (.BasicLit .INT "3"))
      = .done (Float64.ofInt (-1), none) := by
  have h1 := (C2_rem_of_truncations sampleEnv (init sampleEnv)
      (.BasicLit .FLOAT "6.9") (.BasicLit .FLOAT "4.9")
      (parseDecimalFloat "6.9").1 (parseDecimalFloat "4.9").1 6 4
      (by decide) (by decide) (by decide) (by decide) (by decide) (by decide) (by decide)).1
  have h2 := (C2_rem_of_truncations sampleEnv (init sampleEnv)
      (.BasicLit .INT "6") (.BasicLit .INT "4")
      (Float64.ofInt 6) (Float64.ofInt 4) 6 4
      (by decide) (by decide) (by decide) (by decide) (by decide) (by decide) (by decide)).1
  have h3 := (C2_rem_of_truncations sampleEnv (init sampleEnv)
      (.UnaryExpr .SUB (.BasicLit .INT "7")) (.BasicLit .INT "3")
      (Float64.ofInt (-7)) (Float64.ofInt 3) (-7) 3
      (by decide) (by decide) (by decide) (by decide) (by decide) (by decide) (by decide)).1
  exact ⟨h1, h2, h3⟩

/-- C3: a binary node with operator `^` is exponentiation, not exclusive or.
When its operands evaluate to `x` and `y` the node evaluates to
`math.Pow(x, y)`.  Given that `math.Pow` is exact on natural numbers
(`PowExact`), two integer literals with values `a ≥ 0` and `b ≥ 0` such that
`a`, `b` and `a ^ b` are float64 values evaluate to the integer power
`a ^ b`; and `2 ^ (32 - 1) - 1` evaluates to `2147483647`, where exclusive or
would have given `28`. -/
theorem C3_xor_token_is_pow (env : Env) (funcMap : FuncMap) (hPow : PowExact env) :
    (∀ (X Y : Expr) (x y : Float64),
        eval env funcMap X = .done (x, none) → eval env funcMap Y = .done (y, none) →
        eval env funcMap (.BinaryExpr X .XOR Y) = .done (env.Pow x y, none))
    ∧ (∀ (s t : String) (a b : Nat),
        ParseInt s = ((a : Int), none) → ParseInt t = ((b : Int), none) →
        (Float64.ofInt (a : Int)).natValue = some a →
        (Float64.ofInt (b : Int)).natValue = some b →
        (Float64.ofInt ((a ^ b : Nat) : Int)).natValue = some (a ^ b) →
        eval env funcMap (.BinaryExpr (.BasicLit .INT s) .XOR (.BasicLit .INT t))
          = .done (Float64.ofInt ((a ^ b : Nat) : Int), none))
    ∧ eval env funcMap
        (.BinaryExpr
          (.BinaryExpr (.BasicLit .INT "2") .XOR
            (.ParenExpr (.BinaryExpr (.BasicLit .INT "32") .SUB (.BasicLit .INT "1"))))
          .SUB (.BasicLit .INT "1"))
        = .done (Float64.ofInt 2147483647, none)
    ∧ Float64.ofInt 2147483647 ≠ Float64.ofInt (Int.xor 2 31 - 1) := by
  have general : ∀ (X Y : Expr) (x y : Float64),
      eval env funcMap X = .done (x, none) → eval env funcMap Y = .done (y, none) →
      eval env funcMap (.BinaryExpr X .XOR Y) = .done (env.Pow x y, none) := by
    intro X Y x y hX hY
    rw [eval_BinaryExpr, hX, hY, binary_done]
  refine ⟨general, ?_, ?_, by decide⟩
  · intro s t a b hs ht ha hb hab
    rw [general _ _ _ _ (eval_int_literal env funcMap s a hs)
      (eval_int_literal env funcMap t b ht)]
    rw [hPow _ _ a b ha hb hab]
  · have e2 := eval_int_literal env funcMap "2" 2 (by decide)
    have e32 := eval_int_literal env funcMap "32" 32 (by decide)
    have e1 := eval_int_literal env funcMap "1" 1 (by decide)
    have inner : eval env funcMap
        (.ParenExpr (.BinaryExpr (.BasicLit .INT "32") .SUB (.BasicLit .INT "1")))
        = .done (Float64.ofInt 31, none) := by
      rw [eval_ParenExpr, eval_BinaryExpr, e32, e1, binary_done]
      have : (Float64.ofInt 32).sub (Float64.ofInt 1) = Float64.ofInt 31 := by decide
      simp only [this]
    have pw : env.Pow (Float64.ofInt 2) (Float64.ofInt 31) = Float64.ofInt 2147483648 :=
      hPow _ _ 2 31 (by decide) (by decide) (by decide)
    rw [eval_BinaryExpr, general _ _ _ _ e2 inner, e1, binary_done, pw]
    have : (Float64.ofInt 2147483648).sub (Float64.ofInt 1) = Float64.ofInt 2147483647 := by
      decide
    simp only [this]

/-- Witness for C3: the sample environment has an exact `Pow`, and there
`2 ^ (32 - 1) - 1` evaluates to `2147483647`. -/
theorem C3_xor_token_is_pow_witness :
    PowExact sampleEnv
    ∧ eval sampleEnv (init sampleEnv)
        (.BinaryExpr
          (.BinaryExpr (.BasicLit .INT "2") .XOR
            (.ParenExpr (.BinaryExpr (.BasicLit .INT "32") .SUB (.BasicLit .INT "1"))))
          .SUB (.BasicLit .INT "1"))
        = .done (Float64.ofInt 2147483647, none) :=
  ⟨powExact_sampleEnv,
    (C3_xor_token_is_pow sampleEnv (init sampleEnv) powExact_sampleEnv).2.2.1⟩

/-- C4: a call whose callee is an identifier and whose `n` arguments evaluate
to `vs`, under the registry built by `init`, succeeds exactly when the lowered
name is a key of the registry and `n` is the arity of its entry.  In that case
the implementation of the entry, applied to `vs` in source order, returns
(it does not panic) and its result is the value of the call; for `log` that is
`Log(v1) / Log(v2)`. -/
theorem C4_call_applies_builtin (env : Env) (Name : String) (Args : List Expr)
    (vs : List Float64) (hargs : ArgsEvaluateTo env (init env) Args vs) :
    (Succeeds (eval env (init env) (.CallExpr (.Ident Name) Args)) ↔
        ∃ f, init env (ToLower env Name) = some f ∧ (Args.length : Int) = f.Args)
    ∧ (∀ f, init env (ToLower env Name) = some f → (Args.length : Int) = f.Args →
        ∃ r, f.Func vs = .done r ∧
          eval env (init env) (.CallExpr (.Ident Name) Args) = .done (r, none))
    ∧ (∀ v1 v2, ToLower env Name = "log" → vs = [v1, v2] →
        eval env (init env) (.CallExpr (.Ident Name) Args)
          = .done ((env.Log v1).div (env.Log v2), none)) := by
  have hlen : Args.length = vs.length := evaluateTo_length env (init env) Args vs hargs
  have hcall := eval_call_ident env (init env) Name Args vs hargs
  have applied : ∀ f, init env (ToLower env Name) = some f → (Args.length : Int) = f.Args →
      ∃ r, f.Func vs = .done r ∧
        eval env (init env) (.CallExpr (.Ident Name) Args) = .done (r, none) := by
    intro f hf harity
    rw [hlen] at harity
    obtain ⟨r, hr⟩ := init_entry_total env _ f hf vs harity
    refine ⟨r, hr, ?_⟩
    rw [hcall, hf]
    simp only [harity, if_true, hr]
  refine ⟨⟨?_, ?_⟩, applied, ?_⟩
  · rintro ⟨v, hv⟩
    rw [hcall] at hv
    cases hf : init env (ToLower env Name) with
    | none => rw [hf] at hv; simp at hv
    | some f =>
      rw [hf] at hv
      refine ⟨f, rfl, ?_⟩
      by_cases harity : (vs.length : Int) = f.Args
      · rw [hlen]; exact harity
      · simp only [harity, if_false] at hv
        simp at hv
  · rintro ⟨f, hf, harity⟩
    obtain ⟨r, _, hr⟩ := applied f hf harity
    exact ⟨r, hr⟩
  · intro v1 v2 hname hvs
    subst hvs
    have hf : init env (ToLower env Name) = some (Func.mk "log" 2
        (binaryImpl (fun a b => (env.Log a).div (env.Log b)))) := by
      rw [hname]; rfl
    obtain ⟨r, hr, he⟩ := applied _ hf (by rw [hlen]; rfl)
    have hr2 : Run.done ((env.Log v1).div (env.Log v2)) = Run.done r := hr
    cases hr2
    exact he

/-- Witness for C4: `log(8, 2)` in the sample environment is
`Log(8) / Log(2)`, the arguments taken in source order. -/
theorem C4_call_applies_builtin_witness :
    ArgsEvaluateTo sampleEnv (init sampleEnv) [.BasicLit .INT "8", .BasicLit .INT "2"]
        [Float64.ofInt 8, Float64.ofInt 2]
    ∧ eval sampleEnv (init sampleEnv)
        (.CallExpr (.Ident "log") [.BasicLit .INT "8", .BasicLit .INT "2"])
        = .done ((sampleEnv.Log (Float64.ofInt 8)).div (sampleEnv.Log (Float64.ofInt 2)), none) := by
  have hargs : ArgsEvaluateTo sampleEnv (init sampleEnv)
      [.BasicLit .INT "8", .BasicLit .INT "2"] [Float64.ofInt 8, Float64.ofInt 2] :=
    List.Forall₂.cons (by decide) (List.Forall₂.cons (by decide) List.Forall₂.nil)
  have h := (C4_call_applies_builtin sampleEnv "log" _ _ hargs).2.2
    (Float64.ofInt 8) (Float64.ofInt 2) (by decide) rfl
  exact ⟨hargs, h⟩

/-- C5, as the code has it: an arity mismatch is reported by an error that
names the function only.  `sqrt(1, 2)` and `sqrt(1, 2, 3)` fail with the same
error, so no reading of the error yields the number of arguments given (nor
does the error record the expected arity). -/
theorem C5_arity_error_has_no_counts :
    eval sampleEnv (init sampleEnv)
        (.CallExpr (.Ident "sqrt") [.BasicLit .INT "1", .BasicLit .INT "2"])
      = .done (negOne, some (.new "Too many or little arguments for sqrt"))
    ∧ eval sampleEnv (init sampleEnv)
        (.CallExpr (.Ident "sqrt") [.BasicLit .INT "1", .BasicLit .INT "2", .BasicLit .INT "3"])
      = .done (negOne, some (.new "Too many or little arguments for sqrt"))
    ∧ ¬ ∃ got : GoError → Nat,
        (∀ e, eval sampleEnv (init sampleEnv)
            (.CallExpr (.Ident "sqrt") [.BasicLit .INT "1", .BasicLit .INT "2"])
            = .done (negOne, some e) → got e = 2)
        ∧ (∀ e, eval sampleEnv (init sampleEnv)
            (.CallExpr (.Ident "sqrt")
              [.BasicLit .INT "1", .BasicLit .INT "2", .BasicLit .INT "3"])
            = .done (negOne, some e) → got e = 3) := by
  have h2 : eval sampleEnv (init sampleEnv)
      (.CallExpr (.Ident "sqrt") [.BasicLit .INT "1", .BasicLit .INT "2"])
      = .done (negOne, some (.new "Too many or little arguments for sqrt")) := by decide
  have h3 : eval sampleEnv (init sampleEnv)
      (.CallExpr (.Ident "sqrt") [.BasicLit .INT "1", .BasicLit .INT "2", .BasicLit .INT "3"])
      = .done (negOne, some (.new "Too many or little arguments for sqrt")) := by decide
  refine ⟨h2, h3, ?_⟩
  rintro ⟨got, g2, g3⟩
  have e2 := g2 _ h2
  have e3 := g3 _ h3
  omega

/-- C5 (amended): for a call whose callee is an identifier and whose
arguments evaluate successfully, under any registry: a lowered name that is
not a key fails with the error `Unknown function <name>`, and a key whose
entry has another arity than the number of arguments fails with the error
`Too many or little arguments for <name>`, which carries the lowered name
only.  Both hold whatever the implementations in the registry do, so none
of them is run. -/
theorem C5_call_lookup_errors (env : Env) (funcMap : FuncMap) (Name : String)
    (Args : List Expr) (vs : List Float64) (hargs : ArgsEvaluateTo env funcMap Args vs) :
    (funcMap (ToLower env Name) = none →
        eval env funcMap (.CallExpr (.Ident Name) Args)
          = .done (negOne, some (.new ("Unknown function " ++ ToLower env Name))))
    ∧ (∀ f, funcMap (ToLower env Name) = some f → (Args.length : Int) ≠ f.Args →
        eval env funcMap (.CallExpr (.Ident Name) Args)
          = .done (negOne,
              some (.new ("Too many or little arguments for " ++ ToLower env Name)))) := by
  have hlen : Args.length = vs.length := evaluateTo_length env funcMap Args vs hargs
  have hcall := eval_call_ident env funcMap Name Args vs hargs
  constructor
  · intro hnone
    rw [hcall, hnone]
  · intro f hf harity
    rw [hlen] at harity
    rw [hcall, hf]
    simp only [harity, if_false]

/-- Witness for C5: `sqrt(1, 2)` and `unknownfn(1)` in the sample
environment, and `boom(1, 2)` under a registry whose entry `boom` panics when
run: the arity error is returned and the implementation is not reached. -/
theorem C5_call_lookup_errors_witness :
    eval sampleEnv (init sampleEnv)
        (.CallExpr (.Ident "sqrt") [.BasicLit .INT "1", .BasicLit .INT "2"])
      = .done (negOne, some (.new "Too many or little arguments for sqrt"))
    ∧ eval sampleEnv (init sampleEnv) (.CallExpr (.Ident "unknownfn") [.BasicLit .INT "1"])
      = .done (negOne, some (.new "Unknown function unknownfn"))
    ∧ eval sampleEnv (boomMap sampleEnv)
        (.CallExpr (.Ident "boom") [.BasicLit .INT "1", .BasicLit .INT "2"])
      = .done (negOne, some (.new "Too many or little arguments for boom"))
    ∧ eval sampleEnv (boomMap sampleEnv) (.CallExpr (.Ident "boom") [.BasicLit .INT "1"])
      = .panicked "boom was invoked" := by
  have a2 : ArgsEvaluateTo sampleEnv (init sampleEnv)
      [.BasicLit .INT "1", .BasicLit .INT "2"] [Float64.ofInt 1, Float64.ofInt 2] :=
    List.Forall₂.cons (by decide) (List.Forall₂.cons (by decide) List.Forall₂.nil)
  have a1 : ArgsEvaluateTo sampleEnv (init sampleEnv)
      [.BasicLit .INT "1"] [Float64.ofInt 1] :=
    List.Forall₂.cons (by decide) List.Forall₂.nil
  have b2 : ArgsEvaluateTo sampleEnv (boomMap sampleEnv)
      [.BasicLit .INT "1", .BasicLit .INT "2"] [Float64.ofInt 1, Float64.ofInt 2] :=
    List.Forall₂.cons (by decide) (List.Forall₂.cons (by decide) List.Forall₂.nil)
  have h1 := (C5_call_lookup_errors sampleEnv (init sampleEnv) "sqrt" _ _ a2).2
    (Func.mk "sqrt" 1 (unaryImpl sampleEnv.Sqrt)) (by rfl) (by decide)
  have h2 := (C5_call_lookup_errors sampleEnv (init sampleEnv) "unknownfn" _ _ a1).1
    (by rfl)
  have h3 := (C5_call_lookup_errors sampleEnv (boomMap sampleEnv) "boom" _ _ b2).2
    (Func.mk "boom" 1 (fun _ => .panicked "boom was invoked")) (by rfl) (by decide)
  exact ⟨h1, h2, h3, by decide⟩

/-- The outcome of a binary node with any operator, when both operands
return: an error of the left operand is the error of the node, and when the
left operand has no error an error of the right operand is the error of the
node.  A panic of either operand is the outcome of the node, the right one
also after the left operand has returned an error. -/
theorem binary_node_outcomes (env : Env) (funcMap : FuncMap) (X Y : Expr) (Op : Token) :
    (∀ (x : Float64) (e1 : GoError) (ry : Float64 × Option GoError),
        eval env funcMap X = .done (x, some e1) → eval env funcMap Y = .done ry →
        eval env funcMap (.BinaryExpr X Op Y) = .done (negOne, some e1))
    ∧ (∀ (x y : Float64) (e2 : GoError),
        eval env funcMap X = .done (x, none) → eval env funcMap Y = .done (y, some e2) →
        eval env funcMap (.BinaryExpr X Op Y) = .done (negOne, some e2))
    ∧ (∀ p : String, eval env funcMap X = .panicked p →
        eval env funcMap (.BinaryExpr X Op Y) = .panicked p)
    ∧ (∀ (rx : Float64 × Option GoError) (p : String),
        eval env funcMap X = .done rx → eval env funcMap Y = .panicked p →
        eval env funcMap (.BinaryExpr X Op Y) = .panicked p) := by
  refine ⟨?_, ?_, ?_, ?_⟩
  · intro x e1 ry hX hY
    rw [eval_BinaryExpr, hX, hY, binary_left_error]
  · intro x y e2 hX hY
    rw [eval_BinaryExpr, hX, hY, binary_right_error]
  · intro p hX
    rw [eval_BinaryExpr, hX, binary_left_panic]
  · intro rx p hX hY
    rw [eval_BinaryExpr, hX, hY, binary_right_panic]

/-- C6 (the code departs from the claim): in `foo + 1 % 0` the left operand
fails with the error `Unknown ident foo`, but the node does not fail with
that error.  `binary` evaluates the right operand before it looks at the
error of the left one, and the integer division by zero in `1 % 0` panics,
so the node panics.  This holds for every environment and registry, and for
`Calculate` on the text `foo + 1 % 0` in the sample environment. -/
theorem C6_right_panic_hides_left_error (env : Env) (funcMap : FuncMap) :
    eval env funcMap (.Ident "foo") = .done (negOne, some (.new "Unknown ident foo"))
    ∧ eval env funcMap
        (.BinaryExpr (.Ident "foo") .ADD
          (.BinaryExpr (.BasicLit .INT "1") .REM (.BasicLit .INT "0")))
        = .panicked "runtime error: integer divide by zero"
    ∧ Calculate sampleEnv "foo + 1 % 0"
        = .panicked "runtime error: integer divide by zero" := by
  have hfoo : eval env funcMap (.Ident "foo")
      = .done (negOne, some (.new "Unknown ident foo")) := by
    rw [eval_Ident]
    rfl
  have h1 : eval env funcMap (.BasicLit .INT "1") = .done (Float64.ofInt 1, none) :=
    eval_int_literal env funcMap "1" 1 (by decide)
  have h0 : eval env funcMap (.BasicLit .INT "0") = .done (Float64.ofInt 0, none) :=
    eval_int_literal env funcMap "0" 0 (by decide)
  have z0 : toInt64 env (Float64.ofInt 0) = 0 :=
    toInt64_of_trunc env _ 0 (by decide) (by decide) (by decide)
  have hrem : eval env funcMap (.BinaryExpr (.BasicLit .INT "1") .REM (.BasicLit .INT "0"))
      = .panicked "runtime error: integer divide by zero" := by
    rw [eval_BinaryExpr, h1, h0]
    simp only [binary, z0, if_true]
  refine ⟨hfoo, ?_, by decide⟩
  rw [eval_BinaryExpr, hfoo, hrem, binary_right_panic]

/-- C8: if a sub-expression `s` of a tree `t`, reached through binary
operands, unary operands, parentheses and call arguments, does not produce a
value when evaluated on its own (it returns an error or panics), then `t`
does not produce a value either: it returns an error or panics.  No number is
put in the place of a failed sub-expression. -/
theorem C8_failure_propagates (env : Env) (funcMap : FuncMap) (s t : Expr)
    (hsub : SubExpr s t) (hfail : Fails (eval env funcMap s)) :
    Fails (eval env funcMap t)
    ∧ ((∃ v e, eval env funcMap t = .done (v, some e)) ∨ ∃ p, eval env funcMap t = .panicked p) := by
  have main : Fails (eval env funcMap t) := by
    induction hsub with
    | refl => exact hfail
    | binaryX Op Y _ ih =>
      intro hs
      rw [eval_BinaryExpr] at hs
      exact ih (succeeds_binary env Op _ _ hs).1
    | binaryY X Op _ ih =>
      intro hs
      rw [eval_BinaryExpr] at hs
      exact ih (succeeds_binary env Op _ _ hs).2
    | unary Op _ ih =>
      intro hs
      rw [eval_UnaryExpr] at hs
      exact ih (succeeds_unary Op _ hs)
    | paren _ ih =>
      intro hs
      rw [eval_ParenExpr] at hs
      exact ih hs
    | arg Fun Args hmem _ ih =>
      intro hs
      rw [eval_CallExpr] at hs
      obtain ⟨vs, hvs⟩ := succeeds_call env funcMap Fun _ hs
      exact ih (succeeds_of_evalArgs env funcMap Args vs hvs _ hmem)
  exact ⟨main, (fails_iff _).mp main⟩

/-- Witness for C8: the unknown identifier `foo` inside
`1 + sqrt(-(foo))` makes the whole expression fail. -/
theorem C8_failure_propagates_witness :
    Fails (eval sampleEnv (init sampleEnv) (.Ident "foo"))
    ∧ Fails (eval sampleEnv (init sampleEnv)
        (.BinaryExpr (.BasicLit .INT "1") .ADD
          (.CallExpr (.Ident "sqrt") [.UnaryExpr .SUB (.ParenExpr (.Ident "foo"))]))) := by
  have hfoo : Fails (eval sampleEnv (init sampleEnv) (.Ident "foo")) := by
    rw [fails_iff]
    exact Or.inl ⟨negOne, .new "Unknown ident foo", by decide⟩
  have hsub : SubExpr (.Ident "foo")
      (.BinaryExpr (.BasicLit .INT "1") .ADD
        (.CallExpr (.Ident "sqrt") [.UnaryExpr .SUB (.ParenExpr (.Ident "foo"))])) :=
    SubExpr.binaryY _ _ (SubExpr.arg _ _ (List.mem_singleton.mpr rfl)
      (SubExpr.unary _ (SubExpr.paren (SubExpr.refl _))))
  exact ⟨hfoo, (C8_failure_propagates sampleEnv (init sampleEnv) _ _ hsub hfoo).1⟩

/-- C9: a bare identifier evaluates according to its lowered name `n`: `pi`
gives `math.Pi`, `e` gives `math.E`, `phi` gives `math.Phi` (the float64
values nearest to the three constants, with the bit patterns shown), and any
other name fails with the error `Unknown ident n`.  So it succeeds exactly
for these three lowered names. -/
theorem C9_ident_constants (env : Env) (funcMap : FuncMap) (Name : String) :
    (ToLower env Name = "pi" → eval env funcMap (.Ident Name) = .done (Pi, none))
    ∧ (ToLower env Name = "e" → eval env funcMap (.Ident Name) = .done (E, none))
    ∧ (ToLower env Name = "phi" → eval env funcMap (.Ident Name) = .done (Phi, none))
    ∧ (ToLower env Name ≠ "pi" → ToLower env Name ≠ "e" → ToLower env Name ≠ "phi" →
        eval env funcMap (.Ident Name)
          = .done (negOne, some (.new ("Unknown ident " ++ ToLower env Name))))
    ∧ (Succeeds (eval env funcMap (.Ident Name)) ↔
        ToLower env Name = "pi" ∨ ToLower env Name = "e" ∨ ToLower env Name = "phi")
    ∧ Pi = .fin false (0x1921FB54442D18 <<< 1023)
    ∧ E = .fin false (0x15BF0A8B145769 <<< 1023)
    ∧ Phi = .fin false (0x19E3779B97F4A8 <<< 1022) := by
  have hpi : ToLower env Name = "pi" → eval env funcMap (.Ident Name) = .done (Pi, none) := by
    intro h
    rw [eval_Ident]
    simp only [ident, h, if_true]
  have he : ToLower env Name = "e" → eval env funcMap (.Ident Name) = .done (E, none) := by
    intro h
    rw [eval_Ident]
    simp only [ident, h]
    rfl
  have hphi : ToLower env Name = "phi" → eval env funcMap (.Ident Name) = .done (Phi, none) := by
    intro h
    rw [eval_Ident]
    simp only [ident, h]
    rfl
  have hother : ToLower env Name ≠ "pi" → ToLower env Name ≠ "e" → ToLower env Name ≠ "phi" →
      eval env funcMap (.Ident Name)
        = .done (negOne, some (.new ("Unknown ident " ++ ToLower env Name))) := by
    intro h1 h2 h3
    rw [eval_Ident]
    simp only [ident, h1, h2, h3, if_false]
  refine ⟨hpi, he, hphi, hother, ⟨?_, ?_⟩, by decide, by decide, by decide⟩
  · rintro ⟨v, hv⟩
    by_cases h1 : ToLower env Name = "pi"
    · exact Or.inl h1
    by_cases h2 : ToLower env Name = "e"
    · exact Or.inr (Or.inl h2)
    by_cases h3 : ToLower env Name = "phi"
    · exact Or.inr (Or.inr h3)
    rw [hother h1 h2 h3] at hv
    simp at hv
  · rintro (h | h | h)
    · exact ⟨Pi, hpi h⟩
    · exact ⟨E, he h⟩
    · exact ⟨Phi, hphi h⟩

/-- Witness for C9: `PI` evaluates to `math.Pi` and `Foo` fails with
`Unknown ident foo` in the sample environment. -/
theorem C9_ident_constants_witness :
    eval sampleEnv (init sampleEnv) (.Ident "PI") = .done (Pi, none)
    ∧ eval sampleEnv (init sampleEnv) (.Ident "Foo")
        = .done (negOne, some (.new "Unknown ident foo")) := by
  have h1 := (C9_ident_constants sampleEnv (init sampleEnv) "PI").1 (by decide)
  have h2 := (C9_ident_constants sampleEnv (init sampleEnv) "Foo").2.2.2.1
    (by decide) (by decide) (by decide)
  exact ⟨h1, h2⟩

/-- C10: evaluation does not depend on the letter case of names.  Given that
lowering a character twice equals lowering it once, an identifier evaluates
like its lowered form, and a call evaluates like the call of the lowered
callee name with the same arguments, value or error alike. -/
theorem C10_case_insensitive (env : Env) (funcMap : FuncMap) (hlow : LowerIdempotent env) :
    (∀ s : String,
        eval env funcMap (.Ident s) = eval env funcMap (.Ident (ToLower env s)))
    ∧ (∀ (s : String) (Args : List Expr),
        eval env funcMap (.CallExpr (.Ident s) Args)
          = eval env funcMap (.CallExpr (.Ident (ToLower env s)) Args)) := by
  constructor
  · intro s
    rw [eval_Ident, eval_Ident]
    simp only [ident, toLower_idem env hlow s]
  · intro s Args
    rw [eval_CallExpr, eval_CallExpr]
    simp only [call, toLower_idem env hlow s]

/-- Witness for C10: `PI` and `pi`, `Floor(1.2)` and `floor(1.2)` evaluate
alike in the sample environment, the latter two to `1`. -/
theorem C10_case_insensitive_witness :
    LowerIdempotent sampleEnv
    ∧ eval sampleEnv (init sampleEnv) (.Ident "PI")
        = eval sampleEnv (init sampleEnv) (.Ident "pi")
    ∧ eval sampleEnv (init sampleEnv) (.CallExpr (.Ident "Floor") [.BasicLit .FLOAT "1.2"])
        = eval sampleEnv (init sampleEnv) (.CallExpr (.Ident "floor") [.BasicLit .FLOAT "1.2"])
    ∧ eval sampleEnv (init sampleEnv) (.CallExpr (.Ident "floor") [.BasicLit .FLOAT "1.2"])
        = .done (Float64.ofInt 1, none) := by
  have h := C10_case_insensitive sampleEnv (init sampleEnv) lowerIdempotent_sampleEnv
  have h1 := h.1 "PI"
  have h2 := h.2 "Floor" [.BasicLit .FLOAT "1.2"]
  exact ⟨lowerIdempotent_sampleEnv, h1, h2, by decide⟩

/-! ## Auxiliary facts about literals -/

theorem bitLenStep_inv (n : Nat) (st : Nat × Nat) (p : Nat) (h : st.1 * 2 ^ st.2 ≤ n) :
    (bitLenStep st p).1 * 2 ^ (bitLenStep st p).2 ≤ n := by
  unfold bitLenStep
  split
  · exact h
  · show (st.1 >>> p) * 2 ^ (st.2 + p) ≤ n
    rw [Nat.shiftRight_eq_div_pow, Nat.pow_add]
    calc st.1 / 2 ^ p * (2 ^ st.2 * 2 ^ p)
        = (st.1 / 2 ^ p * 2 ^ p) * 2 ^ st.2 := by ring
      _ ≤ st.1 * 2 ^ st.2 := Nat.mul_le_mul_right _ (Nat.div_mul_le_self _ _)
      _ ≤ n := h

theorem bitLen_foldl_inv (n : Nat) (ps : List Nat) :
    ∀ st : Nat × Nat, st.1 * 2 ^ st.2 ≤ n →
      (ps.foldl bitLenStep st).1 * 2 ^ (ps.foldl bitLenStep st).2 ≤ n := by
  induction ps with
  | nil => intro st h; exact h
  | cons p ps ih => intro st h; exact ih _ (bitLenStep_inv n st p h)

theorem bitLenSmall_le (n b : Nat) (h : n < 2 ^ b) : bitLenSmall n ≤ b := by
  unfold bitLenSmall
  have inv := bitLen_foldl_inv n [32, 16, 8, 4, 2, 1] (n, 0) (by simp)
  generalize ([32, 16, 8, 4, 2, 1].foldl bitLenStep (n, 0)) = st at inv
  show (if st.1 = 0 then 0 else st.2 + 1) ≤ b
  split
  · exact Nat.zero_le b
  · rename_i hne
    have h1 : 1 ≤ st.1 := Nat.pos_of_ne_zero hne
    have h2 : 2 ^ st.2 ≤ n := le_trans (by nlinarith [Nat.one_le_two_pow (n := st.2)]) inv
    have h3 : 2 ^ st.2 < 2 ^ b := lt_of_le_of_lt h2 h
    have h4 : st.2 < b := (Nat.pow_lt_pow_iff_right (by norm_num)).mp h3
    omega

theorem bitLenAux_le : ∀ (fuel n b : Nat), n < 2 ^ b → bitLenAux fuel n ≤ b
  | 0, _, b, _ => Nat.zero_le b
  | fuel + 1, n, b, h => by
    unfold bitLenAux
    split
    · exact bitLenSmall_le n b h
    · rename_i hge
      have hge2 : 2 ^ 64 ≤ n := Nat.le_of_not_lt hge
      have hb : 64 < b := by
        by_contra hcon
        have : 2 ^ b ≤ 2 ^ 64 := Nat.pow_le_pow_right (by norm_num) (Nat.le_of_not_lt hcon)
        omega
      have hdiv : n >>> 64 < 2 ^ (b - 64) := by
        rw [Nat.shiftRight_eq_div_pow, Nat.div_lt_iff_lt_mul (Nat.pos_pow_of_pos 64 (by norm_num)),
          ← Nat.pow_add]
        have : b - 64 + 64 = b := by omega
        rw [this]
        exact h
      have := bitLenAux_le fuel (n >>> 64) (b - 64) hdiv
      omega

theorem bitLen_le (n b : Nat) (h : n < 2 ^ b) : bitLen n ≤ b := bitLenAux_le n n b h

/-- A multiple of the rounding unit is not changed by rounding. -/
theorem roundUnits_of_dvd (n : Nat) (h : 2 ^ (bitLen n - 53) ∣ n) : roundUnits n 1 = n := by
  unfold roundUnits
  simp only [Nat.div_one]
  generalize bitLen n - 53 = s at h
  have hpos : 0 < 1 <<< s := by
    rw [Nat.shiftLeft_eq, Nat.one_mul]; exact Nat.pos_pow_of_pos s (by norm_num)
  have hd : 1 <<< s = 2 ^ s := by rw [Nat.shiftLeft_eq, Nat.one_mul]
  have hmod : n % (1 <<< s) = 0 := by rw [hd]; exact Nat.mod_eq_zero_of_dvd h
  unfold rne
  simp only [hmod, Nat.mul_zero, hpos, if_true]
  rw [Nat.shiftLeft_eq, hd]
  exact Nat.div_mul_cancel h

theorem shiftLeft_lt_pow (v e p q : Nat) (h : v < 2 ^ p) (hq : p + e ≤ q) :
    v <<< e < 2 ^ q := by
  rw [Nat.shiftLeft_eq]
  calc v * 2 ^ e < 2 ^ p * 2 ^ e := Nat.mul_lt_mul_of_pos_right h (Nat.pos_pow_of_pos e (by norm_num))
    _ = 2 ^ (p + e) := (Nat.pow_add 2 p e).symm
    _ ≤ 2 ^ q := Nat.pow_le_pow_right (by norm_num) hq

theorem roundUnits_shift (v e : Nat) (h : v < 2 ^ 53) : roundUnits (v <<< e) 1 = v <<< e := by
  apply roundUnits_of_dvd
  have hs : bitLen (v <<< e) - 53 ≤ e := by
    have := bitLen_le _ _ (shiftLeft_lt_pow v e 53 (53 + e) h (Nat.le_refl _))
    omega
  rw [Nat.shiftLeft_eq] at hs ⊢
  exact Dvd.dvd.mul_left (Nat.pow_dvd_pow 2 hs) v

theorem shiftLeft_lt_one_shiftLeft (v e p q : Nat) (h : v < 2 ^ p) (hq : p + e ≤ q) :
    v <<< e < 1 <<< q := by
  rw [Nat.shiftLeft_eq 1, Nat.one_mul]
  exact shiftLeft_lt_pow v e p q h hq

theorem shift_back (v e : Nat) : (v <<< e) >>> e = v := by
  rw [Nat.shiftLeft_eq, Nat.shiftRight_eq_div_pow]
  exact Nat.mul_div_cancel v (Nat.pos_pow_of_pos e (by norm_num))

/-- A natural number below `2^53` is a float64. -/
theorem ofInt_natValue_of_lt (v : Nat) (h : v < 2 ^ 53) :
    (Float64.ofInt (v : Int)).natValue = some v := by
  have hneg : decide ((v : Int) < 0) = false := by simp
  have hlt : v <<< 1074 < 1 <<< 2098 :=
    shiftLeft_lt_one_shiftLeft v 1074 53 2098 h (by decide)
  unfold Float64.ofInt mkFin
  simp only [hneg, Int.natAbs_ofNat, roundUnits_shift v 1074 h, hlt, if_true,
    Float64.natValue, shift_back, true_and]

theorem ofInt_natValue_of_le (v : Nat) (h : v ≤ 2 ^ 53) :
    (Float64.ofInt (v : Int)).natValue = some v := by
  rcases Nat.lt_or_eq_of_le h with hlt | heq
  · exact ofInt_natValue_of_lt v hlt
  · subst heq
    decide

/-- The value that the digit loop has reached after the digits `ds`, starting
from `acc`. -/
theorem decimalValue_eq (ds : List Char) :
    decimalValue ds = ds.foldl (fun n c => n * 10 + (c.toNat - '0'.toNat)) 0 := rfl

theorem digits_foldl_ge (ds : List Char) :
    ∀ acc : Nat, acc ≤ ds.foldl (fun n c => n * 10 + (c.toNat - '0'.toNat)) acc := by
  induction ds with
  | nil => intro acc; exact Nat.le_refl acc
  | cons c cs ih =>
    intro acc
    have := ih (acc * 10 + (c.toNat - '0'.toNat))
    simp only [List.foldl_cons]
    omega

/-- On decimal digits the loop of `ParseUint` returns their value, or the
range error when the value exceeds `2^64 - 1`. -/
theorem parseUintLoop_digits (ds : List Char) :
    ∀ acc : Nat, acc ≤ 2 ^ 64 - 1 → AllDecimal ds →
      parseUintLoop ds acc =
        if ds.foldl (fun n c => n * 10 + (c.toNat - '0'.toNat)) acc ≤ 2 ^ 64 - 1
        then .ok (ds.foldl (fun n c => n * 10 + (c.toNat - '0'.toNat)) acc)
        else .error .ErrRange := by
  induction ds with
  | nil =>
    intro acc h _
    simp only [parseUintLoop, List.foldl_nil, h, if_true]
  | cons c cs ih =>
    intro acc _ hd
    have hc : '0' ≤ c ∧ c ≤ '9' := hd c (List.mem_cons_self c cs)
    have hcs : AllDecimal cs := fun d hmem => hd d (List.mem_cons_of_mem c hmem)
    rw [parseUintLoop, if_pos hc]
    simp only [List.foldl_cons]
    by_cases hov : 2 ^ 64 - 1 < acc * 10 + (c.toNat - '0'.toNat)
    · have hge := digits_foldl_ge cs (acc * 10 + (c.toNat - '0'.toNat))
      have hnot : ¬ cs.foldl (fun n c => n * 10 + (c.toNat - '0'.toNat))
          (acc * 10 + (c.toNat - '0'.toNat)) ≤ 2 ^ 64 - 1 := by omega
      simp only [hov, if_true, hnot, if_false]
    · simp only [hov, if_false]
      exact ih _ (by omega) hcs


theorem digit_not_sign (c : Char) (h : '0' ≤ c ∧ c ≤ '9') : c ≠ '+' ∧ c ≠ '-' := by
  constructor
  · rintro rfl
    exact absurd h.1 (by decide)
  · rintro rfl
    exact absurd h.1 (by decide)

/-- `ParseInt` on a text that starts with a character other than a sign hands
the whole text to `ParseUint`. -/
theorem ParseInt_unsigned (c : Char) (cs : List Char) (hp : c ≠ '+') (hm : c ≠ '-') :
    ParseInt (String.mk (c :: cs)) =
      match ParseUint (c :: cs) with
      | .error .ErrSyntax => (0, some (.numError "ParseInt" (String.mk (c :: cs)) .ErrSyntax))
      | .error .ErrRange => (2 ^ 63 - 1, some (.numError "ParseInt" (String.mk (c :: cs)) .ErrRange))
      | .ok un =>
        if 2 ^ 63 ≤ un then (2 ^ 63 - 1, some (.numError "ParseInt" (String.mk (c :: cs)) .ErrRange))
        else ((un : Int), none) := by
  have hne : String.mk (c :: cs) ≠ "" := by
    intro h
    have := congrArg String.data h
    simp at this
  unfold ParseInt
  rw [if_neg hne]
  have hsplit : (match (String.mk (c :: cs)).data with
      | '+' :: rest => (false, rest)
      | '-' :: rest => (true, rest)
      | ds => (false, ds)) = ((false, c :: cs) : Bool × List Char) := by
    show (match c :: cs with
      | '+' :: rest => (false, rest)
      | '-' :: rest => (true, rest)
      | ds => (false, ds)) = ((false, c :: cs) : Bool × List Char)
    split
    · rename_i heq; cases heq; exact absurd rfl hp
    · rename_i heq; cases heq; exact absurd rfl hm
    · rfl
  simp only [hsplit]
  cases ParseUint (c :: cs) with
  | error k => cases k <;> simp
  | ok un => simp

/-- `ParseInt` on decimal digits: their value below `2^63`, the range error
from there on. -/
theorem ParseInt_digits (ds : List Char) (hne : ds ≠ []) (hd : AllDecimal ds) :
    ParseInt (String.mk ds) =
      if decimalValue ds < 2 ^ 63 then ((decimalValue ds : Int), none)
      else (2 ^ 63 - 1, some (.numError "ParseInt" (String.mk ds) .ErrRange)) := by
  match ds, hne, hd with
  | c :: cs, _, hd =>
    have hc := digit_not_sign c (hd c (List.mem_cons_self c cs))
    rw [ParseInt_unsigned c cs hc.1 hc.2]
    have hu : ParseUint (c :: cs) = parseUintLoop (c :: cs) 0 := by
      unfold ParseUint
      rw [if_neg (List.cons_ne_nil c cs)]
    rw [hu, parseUintLoop_digits (c :: cs) 0 (by norm_num) hd, ← decimalValue_eq]
    by_cases h64 : decimalValue (c :: cs) ≤ 2 ^ 64 - 1
    · rw [if_pos h64]
      by_cases h63 : decimalValue (c :: cs) < 2 ^ 63
      · have : ¬ 2 ^ 63 ≤ decimalValue (c :: cs) := by omega
        simp only [this, if_false, h63, if_true]
      · have : 2 ^ 63 ≤ decimalValue (c :: cs) := by omega
        simp only [this, if_true, h63, if_false]
    · rw [if_neg h64]
      have : ¬ decimalValue (c :: cs) < 2 ^ 63 := by omega
      simp only [this, if_false]

theorem eval_float_literal (env : Env) (funcMap : FuncMap) (s : String) (x : Float64)
    (h : env.ParseFloat s = (x, none)) :
    eval env funcMap (.BasicLit .FLOAT s) = .done (x, none) := by
  rw [eval_BasicLit]
  simp only [basic, h]

theorem eval_int_literal_error (env : Env) (funcMap : FuncMap) (s : String) (i : Int)
    (e : GoError) (h : ParseInt s = (i, some e)) :
    eval env funcMap (.BasicLit .INT s) = .done (negOne, some e) := by
  rw [eval_BasicLit]
  simp only [basic, h]

theorem eval_float_literal_error (env : Env) (funcMap : FuncMap) (s : String) (x : Float64)
    (e : GoError) (h : env.ParseFloat s = (x, some e)) :
    eval env funcMap (.BasicLit .FLOAT s) = .done (negOne, some e) := by
  rw [eval_BasicLit]
  simp only [basic, h]

/-! ## Claims, continued -/

/-- C11, as the code has it: integer literals are read as `int64` and then
converted to float64.  The literal `9223372036854775808` (`2^63`) does not
evaluate: `strconv.ParseInt` reports a range error.  The literal
`9007199254740993` (`2^53 + 1`) evaluates to `9007199254740992`: the
conversion rounds. -/
theorem C11_large_integer_literals :
    eval sampleEnv (init sampleEnv) (.BasicLit .INT "9223372036854775808")
      = .done (negOne, some (.numError "ParseInt" "9223372036854775808" .ErrRange))
    ∧ eval sampleEnv (init sampleEnv) (.BasicLit .INT "9007199254740993")
      = .done (Float64.ofInt 9007199254740992, none)
    ∧ (Float64.ofInt 9007199254740992).natValue = some 9007199254740992 := by
  refine ⟨by decide, by decide, by decide⟩

/-- C11 (amended): an integer-kind literal spelled with decimal digits only,
of value `v` in base ten, evaluates without error to `float64(v)` when
`v < 2^63`, and that float64 is `v` itself when `v ≤ 2^53`; when `v ≥ 2^63`
evaluation fails with the range error of `strconv.ParseInt`.  A float-kind
literal evaluates to the float64 that `strconv.ParseFloat` returns for its
text, and fails with its error when it returns one. -/
theorem C11_numeric_literals (env : Env) (funcMap : FuncMap) :
    (∀ ds : List Char, ds ≠ [] → AllDecimal ds →
      (decimalValue ds < 2 ^ 63 →
        eval env funcMap (.BasicLit .INT (String.mk ds))
          = .done (Float64.ofInt (decimalValue ds : Int), none))
      ∧ (decimalValue ds ≤ 2 ^ 53 →
        (Float64.ofInt (decimalValue ds : Int)).natValue = some (decimalValue ds))
      ∧ (2 ^ 63 ≤ decimalValue ds →
        eval env funcMap (.BasicLit .INT (String.mk ds))
          = .done (negOne, some (.numError "ParseInt" (String.mk ds) .ErrRange))))
    ∧ (∀ (s : String) (x : Float64), env.ParseFloat s = (x, none) →
        eval env funcMap (.BasicLit .FLOAT s) = .done (x, none))
    ∧ (∀ (s : String) (x : Float64) (e : GoError), env.ParseFloat s = (x, some e) →
        eval env funcMap (.BasicLit .FLOAT s) = .done (negOne, some e)) := by
  refine ⟨?_, eval_float_literal env funcMap, eval_float_literal_error env funcMap⟩
  intro ds hne hd
  have hp := ParseInt_digits ds hne hd
  refine ⟨?_, ofInt_natValue_of_le _, ?_⟩
  · intro hlt
    rw [if_pos hlt] at hp
    exact eval_int_literal env funcMap _ _ hp
  · intro hge
    rw [if_neg (by omega)] at hp
    exact eval_int_literal_error env funcMap _ _ _ hp

/-- Witness for C11: `9007199254740992` (`2^53`) evaluates to itself, `0.5`
evaluates to one half in the sample environment. -/
theorem C11_numeric_literals_witness :
    eval sampleEnv (init sampleEnv) (.BasicLit .INT "9007199254740992")
      = .done (Float64.ofInt 9007199254740992, none)
    ∧ (Float64.ofInt 9007199254740992).natValue = some 9007199254740992
    ∧ eval sampleEnv (init sampleEnv) (.BasicLit .FLOAT "0.5")
      = .done (.fin false (1 <<< 1073), none) := by
  have hd : AllDecimal "9007199254740992".data := by unfold AllDecimal; decide
  have h := (C11_numeric_literals sampleEnv (init sampleEnv)).1
    "9007199254740992".data (by decide) hd
  have h1 := h.1 (by decide)
  have h2 := h.2.1 (by decide)
  have h3 := (C11_numeric_literals sampleEnv (init sampleEnv)).2.1 "0.5"
    (.fin false (1 <<< 1073)) (by decide)
  exact ⟨h1, h2, h3⟩


/-- The loop of `ParseUint` fails on a text that holds a character other than
a decimal digit. -/
theorem parseUintLoop_non_digit (c : Char) (hc : ¬ ('0' ≤ c ∧ c ≤ '9')) (ds : List Char) :
    ∀ acc : Nat, c ∈ ds → ∃ k, parseUintLoop ds acc = .error k := by
  induction ds with
  | nil => intro acc h; cases h
  | cons d rest ih =>
    intro acc hmem
    rw [parseUintLoop]
    by_cases hd : '0' ≤ d ∧ d ≤ '9'
    · rw [if_pos hd]
      have hrest : c ∈ rest := by
        rcases List.mem_cons.mp hmem with rfl | h
        · exact absurd hd hc
        · exact h
      by_cases hov : 2 ^ 64 - 1 < acc * 10 + (d.toNat - '0'.toNat)
      · exact ⟨.ErrRange, by simp only [hov, if_true]⟩
      · simp only [hov, if_false]
        exact ih _ hrest
    · rw [if_neg hd]
      exact ⟨.ErrSyntax, rfl⟩

/-- `ParseInt` returns an error for a text that holds a character other than
a decimal digit and a sign. -/
theorem ParseInt_non_digit (s : String) (c : Char) (hmem : c ∈ s.data)
    (hc : ¬ ('0' ≤ c ∧ c ≤ '9')) (hp : c ≠ '+') (hm : c ≠ '-') :
    ∃ i e, ParseInt s = (i, some e) := by
  have hne : s ≠ "" := by
    rintro rfl
    cases hmem
  unfold ParseInt
  rw [if_neg hne]
  have hrest : c ∈ (match s.data with
      | '+' :: rest => (false, rest)
      | '-' :: rest => (true, rest)
      | cs => (false, cs) : Bool × List Char).2 := by
    split
    · rename_i rest heq
      rw [heq] at hmem
      rcases List.mem_cons.mp hmem with rfl | h
      · exact absurd rfl hp
      · exact h
    · rename_i rest heq
      rw [heq] at hmem
      rcases List.mem_cons.mp hmem with rfl | h
      · exact absurd rfl hm
      · exact h
    · exact hmem
  generalize (match s.data with
      | '+' :: rest => (false, rest)
      | '-' :: rest => (true, rest)
      | cs => (false, cs) : Bool × List Char) = signed at hrest
  have hnil : signed.2 ≠ [] := List.ne_nil_of_mem hrest
  obtain ⟨k, hk⟩ := parseUintLoop_non_digit c hc signed.2 0 hrest
  have hu : ParseUint signed.2 = .error k := by
    unfold ParseUint
    rw [if_neg hnil, hk]
  simp only [hu]
  cases k
  · exact ⟨_, _, rfl⟩
  · simp only
    split <;> exact ⟨_, _, rfl⟩

/-- C12, as the code has it: exponent notation and the hexadecimal
floating-point form are accepted.  In the sample environment the float-kind
literal `1e3` evaluates to `1000` and `0x1p4` to `16`, as nodes and through
`Calculate`. -/
theorem C12_exponent_literals_accepted :
    eval sampleEnv (init sampleEnv) (.BasicLit .FLOAT "1e3") = .done (Float64.ofInt 1000, none)
    ∧ eval sampleEnv (init sampleEnv) (.BasicLit .FLOAT "0x1p4")
        = .done (Float64.ofInt 16, none)
    ∧ Calculate sampleEnv "1e3" = .done (Float64.ofInt 1000, none)
    ∧ Calculate sampleEnv "0x1p4" = .done (Float64.ofInt 16, none) := by
  refine ⟨by decide, by decide, by decide, by decide⟩

/-- C12 (amended): an integer-kind literal is a number only when its text is
made of decimal digits: a text that holds any other character than a digit
or a sign, like the hexadecimal `0x10`, makes evaluation fail with the error
of `strconv.ParseInt`.  A float-kind literal is a number whenever
`strconv.ParseFloat` reads its text, and fails with its error otherwise. -/
theorem C12_literal_spellings (env : Env) (funcMap : FuncMap) :
    (∀ (s : String) (c : Char), c ∈ s.data → ¬ ('0' ≤ c ∧ c ≤ '9') → c ≠ '+' → c ≠ '-' →
        ∃ e, eval env funcMap (.BasicLit .INT s) = .done (negOne, some e)
          ∧ ∃ i, ParseInt s = (i, some e))
    ∧ (∀ (s : String) (x : Float64), env.ParseFloat s = (x, none) →
        eval env funcMap (.BasicLit .FLOAT s) = .done (x, none))
    ∧ (∀ (s : String) (x : Float64) (e : GoError), env.ParseFloat s = (x, some e) →
        eval env funcMap (.BasicLit .FLOAT s) = .done (negOne, some e)) := by
  refine ⟨?_, eval_float_literal env funcMap, eval_float_literal_error env funcMap⟩
  intro s c hmem hc hp hm
  obtain ⟨i, e, h⟩ := ParseInt_non_digit s c hmem hc hp hm
  exact ⟨e, eval_int_literal_error env funcMap s i e h, i, h⟩

/-- Witness for C12: the integer-kind literal `0x10` fails with the syntax
error of `strconv.ParseInt`, as a node and through `Calculate`; the
float-kind literal `1e3` is the number `1000`. -/
theorem C12_literal_spellings_witness :
    (∃ e, eval sampleEnv (init sampleEnv) (.BasicLit .INT "0x10") = .done (negOne, some e)
      ∧ ∃ i, ParseInt "0x10" = (i, some e))
    ∧ Calculate sampleEnv "0x10"
        = .done (negOne, some (.numError "ParseInt" "0x10" .ErrSyntax))
    ∧ eval sampleEnv (init sampleEnv) (.BasicLit .FLOAT "1e3")
        = .done (Float64.ofInt 1000, none) := by
  have h1 := (C12_literal_spellings sampleEnv (init sampleEnv)).1 "0x10" 'x'
    (by decide) (by decide) (by decide) (by decide)
  have h2 := (C12_literal_spellings sampleEnv (init sampleEnv)).2.1 "1e3"
    (Float64.ofInt 1000) (by decide)
  exact ⟨h1, by decide, h2⟩


/-- Every entry of the registry of `init`, in full: its key is its `Name`; it
is one of the eleven names of arity one with an implementation of one
argument, or one of the three names of arity two with an implementation of
two arguments. -/
theorem init_entry_full (env : Env) (k : String) (f : Func) (h : init env k = some f) :
    (f.Name = k ∧ k ∈ unaryNames ∧ f.Args = 1 ∧ ∃ g, f.Func = unaryImpl g)
      ∨ (f.Name = k ∧ k ∈ binaryNames ∧ f.Args = 2 ∧ ∃ g, f.Func = binaryImpl g) := by
  rw [init_apply] at h
  by_cases h_min : k = "min"
  · rw [if_pos h_min] at h
    obtain rfl := Option.some.inj h
    subst h_min
    exact Or.inr ⟨rfl, by decide, rfl, _, rfl⟩
  rw [if_neg h_min] at h
  by_cases h_max : k = "max"
  · rw [if_pos h_max] at h
    obtain rfl := Option.some.inj h
    subst h_max
    exact Or.inr ⟨rfl, by decide, rfl, _, rfl⟩
  rw [if_neg h_max] at h
  by_cases h_arctan : k = "arctan"
  · rw [if_pos h_arctan] at h
    obtain rfl := Option.some.inj h
    subst h_arctan
    exact Or.inl ⟨rfl, by decide, rfl, _, rfl⟩
  rw [if_neg h_arctan] at h
  by_cases h_arccos : k = "arccos"
  · rw [if_pos h_arccos] at h
    obtain rfl := Option.some.inj h
    subst h_arccos
    exact Or.inl ⟨rfl, by decide, rfl, _, rfl⟩
  rw [if_neg h_arccos] at h
  by_cases h_arcsin : k = "arcsin"
  · rw [if_pos h_arcsin] at h
    obtain rfl := Option.some.inj h
    subst h_arcsin
    exact Or.inl ⟨rfl, by decide, rfl, _, rfl⟩
  rw [if_neg h_arcsin] at h
  by_cases h_tan : k = "tan"
  · rw [if_pos h_tan] at h
    obtain rfl := Option.some.inj h
    subst h_tan
    exact Or.inl ⟨rfl, by decide, rfl, _, rfl⟩
  rw [if_neg h_tan] at h
  by_cases h_cos : k = "cos"
  · rw [if_pos h_cos] at h
    obtain rfl := Option.some.inj h
    subst h_cos
    exact Or.inl ⟨rfl, by decide, rfl, _, rfl⟩
  rw [if_neg h_cos] at h
  by_cases h_sin : k = "sin"
  · rw [if_pos h_sin] at h
    obtain rfl := Option.some.inj h
    subst h_sin
    exact Or.inl ⟨rfl, by decide, rfl, _, rfl⟩
  rw [if_neg h_sin] at h
  by_cases h_ln : k = "ln"
  · rw [if_pos h_ln] at h
    obtain rfl := Option.some.inj h
    subst h_ln
    exact Or.inl ⟨rfl, by decide, rfl, _, rfl⟩
  rw [if_neg h_ln] at h
  by_cases h_log : k = "log"
  · rw [if_pos h_log] at h
    obtain rfl := Option.some.inj h
    subst h_log
    exact Or.inr ⟨rfl, by decide, rfl, _, rfl⟩
  rw [if_neg h_log] at h
  by_cases h_abs : k = "abs"
  · rw [if_pos h_abs] at h
    obtain rfl := Option.some.inj h
    subst h_abs
    exact Or.inl ⟨rfl, by decide, rfl, _, rfl⟩
  rw [if_neg h_abs] at h
  by_cases h_ceil : k = "ceil"
  · rw [if_pos h_ceil] at h
    obtain rfl := Option.some.inj h
    subst h_ceil
    exact Or.inl ⟨rfl, by decide, rfl, _, rfl⟩
  rw [if_neg h_ceil] at h
  by_cases h_floor : k = "floor"
  · rw [if_pos h_floor] at h
    obtain rfl := Option.some.inj h
    subst h_floor
    exact Or.inl ⟨rfl, by decide, rfl, _, rfl⟩
  rw [if_neg h_floor] at h
  by_cases h_sqrt : k = "sqrt"
  · rw [if_pos h_sqrt] at h
    obtain rfl := Option.some.inj h
    subst h_sqrt
    exact Or.inl ⟨rfl, by decide, rfl, _, rfl⟩
  rw [if_neg h_sqrt] at h
  exact absurd h (by simp)

/-- Each of the fourteen names is a key of the registry of `init`. -/
theorem init_isSome_of_name (env : Env) (k : String) (h : k ∈ unaryNames ++ binaryNames) :
    (init env k).isSome = true := by
  simp only [unaryNames, binaryNames, List.cons_append, List.nil_append, List.mem_cons,
    List.mem_singleton] at h
  rcases h with rfl | rfl | rfl | rfl | rfl | rfl | rfl | rfl | rfl | rfl | rfl | rfl | rfl | h
  all_goals first
    | rfl
    | (rcases h with rfl | h
       · rfl
       · cases h)

/-- Lowering leaves each of the fourteen names unchanged, and each is made
of lower-case letters. -/
theorem builtin_name_lower (env : Env) (k : String) (h : k ∈ unaryNames ++ binaryNames) :
    ToLower env k = k ∧ k.data.all Char.isLower = true := by
  simp only [unaryNames, binaryNames, List.cons_append, List.nil_append, List.mem_cons,
    List.mem_singleton] at h
  rcases h with rfl | rfl | rfl | rfl | rfl | rfl | rfl | rfl | rfl | rfl | rfl | rfl | rfl | h
  all_goals first
    | exact ⟨rfl, by decide⟩
    | (rcases h with rfl | h
       · exact ⟨rfl, by decide⟩
       · cases h)

theorem unaryImpl_reads_first (g : Float64 → Float64) (vs extra : List Float64)
    (h : (vs.length : Int) = 1) :
    ∃ r, unaryImpl g vs = .done r ∧ unaryImpl g (vs ++ extra) = .done r := by
  match vs, h with
  | [v], _ => exact ⟨g v, rfl, by simp [unaryImpl, index]⟩
  | [], hl => simp at hl
  | _ :: _ :: _, hl => simp at hl; omega

theorem binaryImpl_reads_two (g : Float64 → Float64 → Float64) (vs extra : List Float64)
    (h : (vs.length : Int) = 2) :
    ∃ r, binaryImpl g vs = .done r ∧ binaryImpl g (vs ++ extra) = .done r := by
  match vs, h with
  | [v, w], _ => exact ⟨g v w, rfl, by simp [binaryImpl, index]⟩
  | [], hl => simp at hl
  | [_], hl => simp at hl
  | _ :: _ :: _ :: _, hl => simp at hl; omega

/-- C13: the registry built by `init` has exactly the fourteen keys `sqrt`,
`floor`, `ceil`, `abs`, `ln`, `sin`, `cos`, `tan`, `arcsin`, `arccos`,
`arctan` (arity one) and `log`, `max`, `min` (arity two).  Every key equals
the `Name` of its entry, is made of lower-case letters and is left unchanged
by lowering.  Every implementation, given as many values as its arity,
returns, and returns the same when more values follow: it reads no index
at or beyond its arity. -/
theorem C13_registry_contents (env : Env) :
    (∀ k : String, (init env k).isSome = true ↔ k ∈ unaryNames ++ binaryNames)
    ∧ (unaryNames ++ binaryNames).length = 14
    ∧ (unaryNames ++ binaryNames).Nodup
    ∧ (∀ (k : String) (f : Func), init env k = some f →
        f.Name = k
        ∧ ToLower env k = k
        ∧ k.data.all Char.isLower = true
        ∧ f.Args = (if k = "log" ∨ k = "max" ∨ k = "min" then 2 else 1)
        ∧ ∀ vs extra : List Float64, (vs.length : Int) = f.Args →
            ∃ r, f.Func vs = .done r ∧ f.Func (vs ++ extra) = .done r) := by
  have hmem : ∀ (k : String) (f : Func), init env k = some f → k ∈ unaryNames ++ binaryNames := by
    intro k f h
    rcases init_entry_full env k f h with ⟨_, hk, _⟩ | ⟨_, hk, _⟩
    · exact List.mem_append_left _ hk
    · exact List.mem_append_right _ hk
  refine ⟨?_, by decide, by decide, ?_⟩
  · intro k
    constructor
    · intro hs
      obtain ⟨f, hf⟩ := Option.isSome_iff_exists.mp hs
      exact hmem k f hf
    · exact init_isSome_of_name env k
  · intro k f h
    have hlow := builtin_name_lower env k (hmem k f h)
    rcases init_entry_full env k f h with ⟨hn, hk, ha, g, hg⟩ | ⟨hn, hk, ha, g, hg⟩
    · refine ⟨hn, hlow.1, hlow.2, ?_, ?_⟩
      · have hnot : ¬ (k = "log" ∨ k = "max" ∨ k = "min") := by
          simp only [unaryNames, List.mem_cons, List.mem_singleton] at hk
          rcases hk with rfl | rfl | rfl | rfl | rfl | rfl | rfl | rfl | rfl | rfl | rfl | hk
          all_goals first
            | decide
            | cases hk
        rw [if_neg hnot, ha]
      · intro vs extra hlen
        rw [ha] at hlen
        rw [hg]
        exact unaryImpl_reads_first g vs extra hlen
    · refine ⟨hn, hlow.1, hlow.2, ?_, ?_⟩
      · have hyes : k = "log" ∨ k = "max" ∨ k = "min" := by
          simpa [binaryNames] using hk
        rw [if_pos hyes, ha]
      · intro vs extra hlen
        rw [ha] at hlen
        rw [hg]
        exact binaryImpl_reads_two g vs extra hlen

/-- Witness for C13: the entry of `log` in the sample environment has the
name `log`, arity two, and reads its two arguments only. -/
theorem C13_registry_contents_witness :
    ∃ f, init sampleEnv "log" = some f ∧ f.Name = "log" ∧ f.Args = 2
      ∧ ∃ r, f.Func [Float64.ofInt 8, Float64.ofInt 2] = .done r
        ∧ f.Func ([Float64.ofInt 8, Float64.ofInt 2] ++ [Float64.ofInt 5]) = .done r := by
  have h := (C13_registry_contents sampleEnv).2.2.2 "log"
    (Func.mk "log" 2 (binaryImpl (fun a b => (sampleEnv.Log a).div (sampleEnv.Log b)))) rfl
  exact ⟨_, rfl, h.1, h.2.2.2.1,
    h.2.2.2.2 [Float64.ofInt 8, Float64.ofInt 2] [Float64.ofInt 5] rfl⟩

/-- C14: parentheses are transparent.  Evaluating the parenthesised node
around `x` has the outcome of evaluating `x`: the same value, the same error,
or the same panic; so has any number of nested parentheses.  `1 - (4 + 3)`
evaluates to `-6`. -/
theorem C14_paren_transparent (env : Env) (funcMap : FuncMap) (x : Expr) :
    eval env funcMap (.ParenExpr x) = eval env funcMap x
    ∧ (∀ n : Nat, eval env funcMap (Nat.iterate Expr.ParenExpr n x) = eval env funcMap x)
    ∧ eval env funcMap
        (.BinaryExpr (.BasicLit .INT "1") .SUB
          (.ParenExpr (.BinaryExpr (.BasicLit .INT "4") .ADD (.BasicLit .INT "3"))))
        = .done (Float64.ofInt (-6), none) := by
  refine ⟨eval_ParenExpr env funcMap x, ?_, ?_⟩
  · intro n
    induction n with
    | zero => rfl
    | succ n ih => rw [Function.iterate_succ_apply', eval_ParenExpr, ih]
  · have e1 := eval_int_literal env funcMap "1" 1 (by decide)
    have e4 := eval_int_literal env funcMap "4" 4 (by decide)
    have e3 := eval_int_literal env funcMap "3" 3 (by decide)
    rw [eval_BinaryExpr, eval_ParenExpr, eval_BinaryExpr, e1, e4, e3, binary_done, binary_done]
    have : (Float64.ofInt 1).sub ((Float64.ofInt 4).add (Float64.ofInt 3)) = Float64.ofInt (-6) := by
      decide
    simp only [this]

/-- C15, as the code has it: the operands are looked at before the operator.
`foo << 1` fails with the error of its left operand, `Unknown ident foo`, not
with the unknown-operator error. -/
theorem C15_operand_error_before_operator :
    eval sampleEnv (init sampleEnv) (.BinaryExpr (.Ident "foo") .SHL (.BasicLit .INT "1"))
      = .done (negOne, some (.new "Unknown ident foo"))
    ∧ GoError.new "Unknown ident foo" ≠ GoError.new "Unknown operator" := by
  refine ⟨by decide, by decide⟩

/-- C15 (amended): a binary node whose operator is outside
`+ - * / % & | ^` and whose two operands evaluate successfully fails with the
error `Unknown operator`.  When both operands return and one of them returns
an error, that error is returned instead, the left one first. -/
theorem C15_unknown_operator (env : Env) (funcMap : FuncMap) (X Y : Expr) (Op : Token)
    (hop : Op ∉ supportedOperators) :
    (∀ x y : Float64,
        eval env funcMap X = .done (x, none) → eval env funcMap Y = .done (y, none) →
        eval env funcMap (.BinaryExpr X Op Y) = .done (negOne, some (.new "Unknown operator")))
    ∧ (∀ (x : Float64) (e1 : GoError) (ry : Float64 × Option GoError),
        eval env funcMap X = .done (x, some e1) → eval env funcMap Y = .done ry →
        eval env funcMap (.BinaryExpr X Op Y) = .done (negOne, some e1))
    ∧ (∀ (x y : Float64) (e2 : GoError),
        eval env funcMap X = .done (x, none) → eval env funcMap Y = .done (y, some e2) →
        eval env funcMap (.BinaryExpr X Op Y) = .done (negOne, some e2)) := by
  refine ⟨?_, ?_, ?_⟩
  · intro x y hX hY
    rw [eval_BinaryExpr, hX, hY, binary_done]
    cases Op <;> first
      | rfl
      | exact absurd (by decide) hop
  · intro x e1 ry hX hY
    rw [eval_BinaryExpr, hX, hY, binary_left_error]
  · intro x y e2 hX hY
    rw [eval_BinaryExpr, hX, hY, binary_right_error]

/-- Witness for C15: `1 << 2` and `1 == 2` fail with `Unknown operator`,
`foo << bar` with the error of `foo`, and `1 << bar` with the error of
`bar`. -/
theorem C15_unknown_operator_witness :
    eval sampleEnv (init sampleEnv) (.BinaryExpr (.BasicLit .INT "1") .SHL (.BasicLit .INT "2"))
      = .done (negOne, some (.new "Unknown operator"))
    ∧ eval sampleEnv (init sampleEnv) (.BinaryExpr (.BasicLit .INT "1") .EQL (.BasicLit .INT "2"))
      = .done (negOne, some (.new "Unknown operator"))
    ∧ eval sampleEnv (init sampleEnv) (.BinaryExpr (.Ident "foo") .SHL (.Ident "bar"))
      = .done (negOne, some (.new "Unknown ident foo"))
    ∧ eval sampleEnv (init sampleEnv) (.BinaryExpr (.BasicLit .INT "1") .SHL (.Ident "bar"))
      = .done (negOne, some (.new "Unknown ident bar")) := by
  have h1 := (C15_unknown_operator sampleEnv (init sampleEnv)
    (.BasicLit .INT "1") (.BasicLit .INT "2") .SHL (by decide)).1
    (Float64.ofInt 1) (Float64.ofInt 2) (by decide) (by decide)
  have h2 := (C15_unknown_operator sampleEnv (init sampleEnv)
    (.BasicLit .INT "1") (.BasicLit .INT "2") .EQL (by decide)).1
    (Float64.ofInt 1) (Float64.ofInt 2) (by decide) (by decide)
  have h3 := (C15_unknown_operator sampleEnv (init sampleEnv)
    (.Ident "foo") (.Ident "bar") .SHL (by decide)).2.1
    negOne (.new "Unknown ident foo") (negOne, some (.new "Unknown ident bar"))
    (by decide) (by decide)
  have h4 := (C15_unknown_operator sampleEnv (init sampleEnv)
    (.BasicLit .INT "1") (.Ident "bar") .SHL (by decide)).2.2
    (Float64.ofInt 1) negOne (.new "Unknown ident bar") (by decide) (by decide)
  exact ⟨h1, h2, h3, h4⟩

/-- C16: division does not fail.  When the two operands of a `/` node
evaluate to `x` and `y`, the node evaluates to the float64 quotient `x / y`
without error; for a divisor that is zero the quotient is an infinity or
NaN.  `1 / 0` evaluates to positive infinity. -/
theorem C16_division_never_fails (env : Env) (funcMap : FuncMap) (X Y : Expr)
    (x y : Float64)
    (hX : eval env funcMap X = .done (x, none)) (hY : eval env funcMap Y = .done (y, none)) :
    eval env funcMap (.BinaryExpr X .QUO Y) = .done (x.div y, none)
    ∧ (∀ s : Bool, y = .fin s 0 → x.div y = .nan ∨ ∃ b, x.div y = .inf b)
    ∧ eval env funcMap (.BinaryExpr (.BasicLit .INT "1") .QUO (.BasicLit .INT "0"))
        = .done (.inf false, none) := by
  refine ⟨?_, ?_, ?_⟩
  · rw [eval_BinaryExpr, hX, hY, binary_done]
  · intro s hy
    subst hy
    cases x with
    | nan => exact Or.inl rfl
    | inf a => exact Or.inr ⟨_, rfl⟩
    | fin a k =>
      by_cases hk : k = 0
      · left; subst hk; rfl
      · right
        exact ⟨a != s, by simp only [Float64.div, if_true, hk, if_false]⟩
  · rw [eval_BinaryExpr, eval_int_literal env funcMap "1" 1 (by decide),
      eval_int_literal env funcMap "0" 0 (by decide), binary_done]
    have : (Float64.ofInt 1).div (Float64.ofInt 0) = .inf false := by decide
    simp only [this]

/-- Witness for C16: `1 / 0` and `2 / 4` in the sample environment. -/
theorem C16_division_never_fails_witness :
    eval sampleEnv (init sampleEnv) (.BinaryExpr (.BasicLit .INT "1") .QUO (.BasicLit .INT "0"))
      = .done (.inf false, none)
    ∧ eval sampleEnv (init sampleEnv) (.BinaryExpr (.BasicLit .INT "2") .QUO (.BasicLit .INT "4"))
      = .done (.fin false (1 <<< 1073), none) := by
  have h1 := (C16_division_never_fails sampleEnv (init sampleEnv)
    (.BasicLit .INT "1") (.BasicLit .INT "0") (Float64.ofInt 1) (Float64.ofInt 0)
    (by decide) (by decide)).1
  have h2 := (C16_division_never_fails sampleEnv (init sampleEnv)
    (.BasicLit .INT "2") (.BasicLit .INT "4") (Float64.ofInt 2) (Float64.ofInt 4)
    (by decide) (by decide)).1
  exact ⟨h1, h2⟩


/-! ## The value returned next to an error -/

theorem binary_error_value (env : Env) (Op : Token) (rx ry : Result) (v : Float64)
    (e : GoError) (h : binary env Op rx ry = .done (v, some e)) : v = negOne := by
  match rx, ry, h with
  | .panicked p, _, h => simp [binary] at h
  | .done (x, e1), .panicked p, h => simp [binary] at h
  | .done (x, some e1), .done (y, e2), h =>
    rw [binary_left_error] at h
    cases h
    rfl
  | .done (x, none), .done (y, some e2), h =>
    rw [binary_right_error] at h
    cases h
    rfl
  | .done (x, none), .done (y, none), h =>
    rw [binary_done] at h
    cases Op
    case REM =>
      by_cases hz : toInt64 env y = 0
      · simp [hz] at h
      · simp [hz] at h
    all_goals first
      | (simp at h; exact h.1.symm)
      | simp at h

theorem basic_error_value (env : Env) (Kind : Token) (Value : String) (v : Float64)
    (e : GoError) (h : basic env Kind Value = .done (v, some e)) : v = negOne := by
  unfold basic at h
  cases Kind
  case INT =>
    simp only at h
    split at h
    · cases h; rfl
    · cases h
  case FLOAT =>
    simp only at h
    split at h
    · cases h; rfl
    · cases h
  all_goals (cases h; rfl)

theorem unary_error_value (Op : Token) (rx : Result) (v : Float64) (e : GoError)
    (h : unary Op rx = .done (v, some e)) : v = negOne := by
  match rx, h with
  | .panicked p, h => simp [unary] at h
  | .done (x, some e1), h => simp [unary] at h; exact h.1.symm
  | .done (x, none), h =>
    cases Op <;> first
      | (simp [unary] at h; exact h.1.symm)
      | simp [unary] at h

theorem ident_error_value (env : Env) (Name : String) (v : Float64) (e : GoError)
    (h : ident env Name = .done (v, some e)) : v = negOne := by
  unfold ident at h
  simp only at h
  split_ifs at h <;> first
    | (cases h; rfl)
    | cases h

theorem call_error_value (env : Env) (funcMap : FuncMap) (Fun : Expr)
    (rargs : Run (Except GoError (List Float64))) (v : Float64) (e : GoError)
    (h : call env funcMap Fun rargs = .done (v, some e)) : v = negOne := by
  cases Fun with
  | Ident Name =>
    match rargs, h with
    | .panicked p, h => simp [call] at h
    | .done (.error err), h => simp [call] at h; exact h.1.symm
    | .done (.ok args), h =>
      simp only [call] at h
      split at h
      · split_ifs at h
        · split at h
          · cases h
          · cases h
        · cases h; rfl
      · cases h; rfl
  | _ => simp [call] at h; exact h.1.symm

/-- Whenever `eval` returns an error, it returns `-1` with it. -/
theorem eval_error_value (env : Env) (funcMap : FuncMap) :
    ∀ (t : Expr) (v : Float64) (e : GoError),
      eval env funcMap t = .done (v, some e) → v = negOne
  | .BinaryExpr X Op Y, v, e, h => by
    rw [eval_BinaryExpr] at h
    exact binary_error_value env Op _ _ v e h
  | .BasicLit Kind Value, v, e, h => by
    rw [eval_BasicLit] at h
    exact basic_error_value env Kind Value v e h
  | .ParenExpr X, v, e, h => by
    rw [eval_ParenExpr] at h
    exact eval_error_value env funcMap X v e h
  | .CallExpr Fun Args, v, e, h => by
    rw [eval_CallExpr] at h
    exact call_error_value env funcMap Fun _ v e h
  | .UnaryExpr Op X, v, e, h => by
    rw [eval_UnaryExpr] at h
    exact unary_error_value Op _ v e h
  | .Ident Name, v, e, h => by
    rw [eval_Ident] at h
    exact ident_error_value env Name v e h
  | .SelectorExpr X Sel, v, e, h => by
    rw [eval_SelectorExpr] at h
    cases h
    rfl
  | .Other kind, v, e, h => by
    rw [eval_Other] at h
    cases h
    rfl

theorem neg_neg (x : Float64) : x.neg.neg = x := by
  cases x with
  | nan => rfl
  | inf s => cases s <;> rfl
  | fin s k => cases s <;> rfl

/-- Negating twice, with or without parentheses in between, gives back the
outcome. -/
theorem unary_sub_twice (r : Result)
    (hval : ∀ v e, r = .done (v, some e) → v = negOne) :
    unary .SUB (unary .SUB r) = r := by
  match r, hval with
  | .panicked p, _ => rfl
  | .done (v, some e), hval =>
    have := hval v e rfl
    subst this
    rfl
  | .done (v, none), _ =>
    show Run.done (v.neg.neg, none) = Run.done (v, none)
    rw [neg_neg]

/-- C17: double negation is the identity.  For every node `x`, evaluating
`-(-(x))` has the outcome of evaluating `x`: the same value on success, the
same error (next to the same `-1`) on failure, the same panic. -/
theorem C17_double_negation (env : Env) (funcMap : FuncMap) (x : Expr) :
    eval env funcMap (.UnaryExpr .SUB (.ParenExpr (.UnaryExpr .SUB (.ParenExpr x))))
      = eval env funcMap x := by
  rw [eval_UnaryExpr, eval_ParenExpr, eval_UnaryExpr, eval_ParenExpr]
  exact unary_sub_twice _ (eval_error_value env funcMap x)

/-- C19: the value next to an error is `-1`.  Whenever `Calculate`, `eval`,
`binary`, `basic`, `unary`, `ident` or `call` returns a non-nil error, the
float64 returned with it is `-1`; for `binary`, `unary` and `call` this holds
whatever the outcomes of the sub-evaluations are. -/
theorem C19_error_sentinel (env : Env) (funcMap : FuncMap) :
    (∀ (s : String) (v : Float64) (e : GoError),
        Calculate env s = .done (v, some e) → v = negOne)
    ∧ (∀ (t : Expr) (v : Float64) (e : GoError),
        eval env funcMap t = .done (v, some e) → v = negOne)
    ∧ (∀ (Op : Token) (rx ry : Result) (v : Float64) (e : GoError),
        binary env Op rx ry = .done (v, some e) → v = negOne)
    ∧ (∀ (Kind : Token) (Value : String) (v : Float64) (e : GoError),
        basic env Kind Value = .done (v, some e) → v = negOne)
    ∧ (∀ (Op : Token) (rx : Result) (v : Float64) (e : GoError),
        unary Op rx = .done (v, some e) → v = negOne)
    ∧ (∀ (Name : String) (v : Float64) (e : GoError),
        ident env Name = .done (v, some e) → v = negOne)
    ∧ (∀ (Fun : Expr) (rargs : Run (Except GoError (List Float64))) (v : Float64)
        (e : GoError), call env funcMap Fun rargs = .done (v, some e) → v = negOne) := by
  refine ⟨?_, eval_error_value env funcMap, binary_error_value env, basic_error_value env,
    unary_error_value, ident_error_value env, call_error_value env funcMap⟩
  intro s v e h
  unfold Calculate at h
  split at h
  · cases h; rfl
  · exact eval_error_value env (init env) _ v e h

/-- Witness for C19: the unknown operator in `1 << 2`, the unknown identifier
deep inside `sqrt(1 + (-(foo)))`, and the text `1 +` that does not parse, each
return an error, and the value `float64(-1)` with it. -/
theorem C19_error_sentinel_witness :
    (eval sampleEnv (init sampleEnv)
        (.BinaryExpr (.BasicLit .INT "1") .SHL (.BasicLit .INT "2"))
        = .done (Float64.ofInt (-1), some (.new "Unknown operator"))
      ∧ Float64.ofInt (-1) = negOne)
    ∧ (Calculate sampleEnv "sqrt(1 + (-(foo)))"
        = .done (Float64.ofInt (-1), some (.new "Unknown ident foo"))
      ∧ Float64.ofInt (-1) = negOne)
    ∧ (Calculate sampleEnv "1 +"
        = .done (Float64.ofInt (-1), some (.errorList "parser: expected operand"))
      ∧ Float64.ofInt (-1) = negOne) := by
  have h := C19_error_sentinel sampleEnv (init sampleEnv)
  have e1 : eval sampleEnv (init sampleEnv)
      (.BinaryExpr (.BasicLit .INT "1") .SHL (.BasicLit .INT "2"))
      = .done (Float64.ofInt (-1), some (.new "Unknown operator")) := by decide
  have e2 : Calculate sampleEnv "sqrt(1 + (-(foo)))"
      = .done (Float64.ofInt (-1), some (.new "Unknown ident foo")) := by decide
  have e3 : Calculate sampleEnv "1 +"
      = .done (Float64.ofInt (-1), some (.errorList "parser: expected operand")) := by decide
  exact ⟨⟨e1, h.2.1 _ _ _ e1⟩, ⟨e2, h.1 _ _ _ e2⟩, ⟨e3, h.1 _ _ _ e3⟩⟩

/-- C20: a call whose callee is not a bare identifier fails with the error
`Unknown function type`, for every list of arguments: the arguments are not
evaluated, so neither their errors nor their panics show. -/
theorem C20_callee_must_be_identifier (env : Env) (funcMap : FuncMap) (Fun : Expr)
    (Args : List Expr) (hfun : ∀ name : String, Fun ≠ .Ident name) :
    eval env funcMap (.CallExpr Fun Args)
      = .done (negOne, some (.new "Unknown function type")) := by
  rw [eval_CallExpr]
  cases Fun with
  | Ident Name => exact absurd rfl (hfun Name)
  | _ => rfl

/-- Witness for C20: `(sqrt)(4)`, `math.sqrt(4)` and `(sqrt)(1 % 0)` fail with
`Unknown function type`, while `sqrt(4)` evaluates and `sqrt(1 % 0)` panics:
parentheses around a callee change the outcome. -/
theorem C20_callee_must_be_identifier_witness :
    eval sampleEnv (init sampleEnv)
        (.CallExpr (.ParenExpr (.Ident "sqrt")) [.BasicLit .INT "4"])
      = .done (negOne, some (.new "Unknown function type"))
    ∧ eval sampleEnv (init sampleEnv)
        (.CallExpr (.SelectorExpr (.Ident "math") "sqrt") [.BasicLit .INT "4"])
      = .done (negOne, some (.new "Unknown function type"))
    ∧ eval sampleEnv (init sampleEnv)
        (.CallExpr (.ParenExpr (.Ident "sqrt"))
          [.BinaryExpr (.BasicLit .INT "1") .REM (.BasicLit .INT "0")])
      = .done (negOne, some (.new "Unknown function type"))
    ∧ Calculate sampleEnv "(sqrt)(4)" = .done (negOne, some (.new "Unknown function type"))
    ∧ Calculate sampleEnv "math.sqrt(4)" = .done (negOne, some (.new "Unknown function type"))
    ∧ Calculate sampleEnv "sqrt(4)" = .done (sampleEnv.Sqrt (Float64.ofInt 4), none)
    ∧ Calculate sampleEnv "sqrt(1 % 0)" = .panicked "runtime error: integer divide by zero" := by
  have h1 := C20_callee_must_be_identifier sampleEnv (init sampleEnv)
    (.ParenExpr (.Ident "sqrt")) [.BasicLit .INT "4"] (by intro name h; cases h)
  have h2 := C20_callee_must_be_identifier sampleEnv (init sampleEnv)
    (.SelectorExpr (.Ident "math") "sqrt") [.BasicLit .INT "4"] (by intro name h; cases h)
  have h3 := C20_callee_must_be_identifier sampleEnv (init sampleEnv)
    (.ParenExpr (.Ident "sqrt")) [.BinaryExpr (.BasicLit .INT "1") .REM (.BasicLit .INT "0")]
    (by intro name h; cases h)
  exact ⟨h1, h2, h3, by decide, by decide, by decide, by decide⟩


/-! ## Precedence -/

/-- Two binary operators between three literals: the parser groups to the
left unless the second operator binds tighter than the first. -/
theorem parseTokens_two_operators (ka kb kc : Token) (a b c : String) (op1 op2 : Token)
    (h1 : 0 < precedence op1) (h2 : 0 < precedence op2) :
    parseTokens [.lit ka a, .op op1, .lit kb b, .op op2, .lit kc c] =
      .ok (if precedence op2 ≤ precedence op1 then
          .BinaryExpr (.BinaryExpr (.BasicLit ka a) op1 (.BasicLit kb b)) op2 (.BasicLit kc c)
        else
          .BinaryExpr (.BasicLit ka a) op1 (.BinaryExpr (.BasicLit kb b) op2 (.BasicLit kc c))) := by
  cases op1 <;> first
    | exact absurd h1 (by decide)
    | (cases op2 <;> first
        | exact absurd h2 (by decide)
        | rfl)

theorem Calculate_of_tokens (env : Env) (hparse : env.ParseExpr = goParseExpr) (s : String)
    (toks : List Lexeme) (root : Expr) (hscan : scan s = .ok toks)
    (htree : parseTokens toks = .ok root) :
    Calculate env s = eval env (init env) root := by
  unfold Calculate
  rw [hparse]
  simp only [goParseExpr, hscan, htree]

/-- C18, as the code has it: the grouping is that of Go's expression grammar.
`2 * 3 ^ 2` evaluates to `(2 * 3) ^ 2 = 36` and not to `2 * (3 ^ 2) = 18`;
`1 + 1 & 2` evaluates to `1 + (1 & 2) = 1` and not to `(1 + 1) & 2 = 2`;
`1 | 1 + 1` evaluates to `(1 | 1) + 1 = 2` and not to `1 | (1 + 1) = 3`. -/
theorem C18_precedence_is_not_the_stated_one :
    (Calculate sampleEnv "2 * 3 ^ 2" = .done (Float64.ofInt 36, none)
      ∧ eval sampleEnv (init sampleEnv)
          (.BinaryExpr (.BasicLit .INT "2") .MUL
            (.BinaryExpr (.BasicLit .INT "3") .XOR (.BasicLit .INT "2")))
          = .done (Float64.ofInt 18, none)
      ∧ Float64.ofInt 36 ≠ Float64.ofInt 18)
    ∧ (Calculate sampleEnv "1 + 1 & 2" = .done (Float64.ofInt 1, none)
      ∧ eval sampleEnv (init sampleEnv)
          (.BinaryExpr (.BinaryExpr (.BasicLit .INT "1") .ADD (.BasicLit .INT "1")) .AND
            (.BasicLit .INT "2"))
          = .done (Float64.ofInt 2, none)
      ∧ Float64.ofInt 1 ≠ Float64.ofInt 2)
    ∧ (Calculate sampleEnv "1 | 1 + 1" = .done (Float64.ofInt 2, none)
      ∧ eval sampleEnv (init sampleEnv)
          (.BinaryExpr (.BasicLit .INT "1") .OR
            (.BinaryExpr (.BasicLit .INT "1") .ADD (.BasicLit .INT "1")))
          = .done (Float64.ofInt 3, none)
      ∧ Float64.ofInt 2 ≠ Float64.ofInt 3) := by
  refine ⟨⟨by decide, by decide, by decide⟩, ⟨by decide, by decide, by decide⟩,
    ⟨by decide, by decide, by decide⟩⟩

/-- C18 (amended): the precedence of `Calculate` is that of the Go parser:
`* / % &` (with `<< >> &^`) bind tightest, then `+ - | ^`, and operators of
one precedence group from the left.  For a text that is three literals
`a`, `b`, `c` with two binary operators between them, `Calculate` evaluates
`(a op1 b) op2 c` unless `op2` binds tighter than `op1`, when it evaluates
`a op1 (b op2 c)`.  So `a * b ^ c` is `(a * b) ^ c`, `a + b & c` is
`a + (b & c)`, and `a | b + c` is `(a | b) + c`. -/
theorem C18_go_precedence (env : Env) (hparse : env.ParseExpr = goParseExpr) (s : String)
    (ka kb kc : Token) (a b c : String) (op1 op2 : Token)
    (h1 : 0 < precedence op1) (h2 : 0 < precedence op2)
    (hscan : scan s = .ok [.lit ka a, .op op1, .lit kb b, .op op2, .lit kc c]) :
    Calculate env s = eval env (init env)
        (if precedence op2 ≤ precedence op1 then
          .BinaryExpr (.BinaryExpr (.BasicLit ka a) op1 (.BasicLit kb b)) op2 (.BasicLit kc c)
        else
          .BinaryExpr (.BasicLit ka a) op1 (.BinaryExpr (.BasicLit kb b) op2 (.BasicLit kc c)))
    ∧ (op1 = .MUL → op2 = .XOR → Calculate env s = eval env (init env)
        (.BinaryExpr (.BinaryExpr (.BasicLit ka a) .MUL (.BasicLit kb b)) .XOR (.BasicLit kc c)))
    ∧ (op1 = .ADD → op2 = .AND → Calculate env s = eval env (init env)
        (.BinaryExpr (.BasicLit ka a) .ADD (.BinaryExpr (.BasicLit kb b) .AND (.BasicLit kc c))))
    ∧ (op1 = .OR → op2 = .ADD → Calculate env s = eval env (init env)
        (.BinaryExpr (.BinaryExpr (.BasicLit ka a) .OR (.BasicLit kb b)) .ADD (.BasicLit kc c)))
    ∧ (precedence .MUL = 5 ∧ precedence .QUO = 5 ∧ precedence .REM = 5 ∧ precedence .AND = 5
      ∧ precedence .ADD = 4 ∧ precedence .SUB = 4 ∧ precedence .OR = 4
      ∧ precedence .XOR = 4) := by
  have main := Calculate_of_tokens env hparse s _ _ hscan
    (parseTokens_two_operators ka kb kc a b c op1 op2 h1 h2)
  refine ⟨main, ?_, ?_, ?_, by decide⟩
  · rintro rfl rfl
    exact main
  · rintro rfl rfl
    exact main
  · rintro rfl rfl
    exact main

/-- Witness for C18: `2 * 3 ^ 2` in the sample environment is the tree
`(2 * 3) ^ 2`, of value `36`. -/
theorem C18_go_precedence_witness :
    sampleEnv.ParseExpr = goParseExpr
    ∧ scan "2 * 3 ^ 2"
        = .ok [.lit .INT "2", .op .MUL, .lit .INT "3", .op .XOR, .lit .INT "2"]
    ∧ Calculate sampleEnv "2 * 3 ^ 2" = eval sampleEnv (init sampleEnv)
        (.BinaryExpr (.BinaryExpr (.BasicLit .INT "2") .MUL (.BasicLit .INT "3")) .XOR
          (.BasicLit .INT "2"))
    ∧ eval sampleEnv (init sampleEnv)
        (.BinaryExpr (.BinaryExpr (.BasicLit .INT "2") .MUL (.BasicLit .INT "3")) .XOR
          (.BasicLit .INT "2"))
        = .done (Float64.ofInt 36, none) := by
  have hscan : scan "2 * 3 ^ 2"
      = .ok [.lit .INT "2", .op .MUL, .lit .INT "3", .op .XOR, .lit .INT "2"] := by rfl
  have h := (C18_go_precedence sampleEnv rfl "2 * 3 ^ 2" .INT .INT .INT "2" "3" "2"
    .MUL .XOR (by decide) (by decide) hscan).2.1 rfl rfl
  exact ⟨rfl, hscan, h, by decide⟩


end Calc
